import Mathlib

/-!
# ClearMindLoop (script.js)

A shallow embedding of the single source file `src/script.js`: the in-memory
Thought list, the tab-scoped storage it is mirrored to, the DOM state the
handlers read and write, and the handlers themselves.  Platform functions the
script calls (`String.prototype.trim`, `Number.prototype.toString`,
`JSON.stringify`, `JSON.parse`, `sessionStorage`) are embedded after
ECMA-262 / the Web Storage standard on the values the script passes to them.
-/

namespace ClearMindLoop

/-! ## JavaScript strings -/

/-- A JavaScript string value: its sequence of UTF-16 code units. -/
abbrev JSString := List Nat

/-- UTF-16 encoding of a string literal of the source. -/
def utf16 (s : String) : JSString :=
  s.toList.flatMap fun c =>
    if c.toNat < 65536 then [c.toNat]
    else [55296 + (c.toNat - 65536) / 1024, 56320 + (c.toNat - 65536) % 1024]

/-- Code units removed by `String.prototype.trim`: the WhiteSpace and
LineTerminator productions of ECMA-262 (TAB, LF, VT, FF, CR, SP, NBSP,
U+1680, U+2000..U+200A, U+2028, U+2029, U+202F, U+205F, U+3000, U+FEFF). -/
def isWhiteSpace (c : Nat) : Bool :=
  c == 9 || c == 10 || c == 11 || c == 12 || c == 13 || c == 32 || c == 160 ||
  c == 5760 || (8192 ≤ c && c ≤ 8202) || c == 8232 || c == 8233 || c == 8239 ||
  c == 8287 || c == 12288 || c == 65279

/-- `String.prototype.trim`: strip white space from both ends. -/
def trim (s : JSString) : JSString :=
  (s.dropWhile isWhiteSpace).rdropWhile isWhiteSpace

/-- Decimal digits of `n`, most significant first; `fuel` bounds the number of
digits. -/
def toDigits : Nat → Nat → JSString
  | 0, _ => []
  | fuel + 1, n =>
    if n < 10 then [48 + n] else toDigits fuel (n / 10) ++ [48 + n % 10]

/-- `Number.prototype.toString` on a non-negative integer below 10^21 (array
indices always are): the decimal digits. -/
def natToString (n : Nat) : JSString := toDigits (n + 1) n

/-- `Number.prototype.toString` on an integer (the time values `Date.now()`
returns lie within ±8.64e15, where the result is the plain decimal form). -/
def numberToString (i : Int) : JSString :=
  if i < 0 then 45 :: natToString i.natAbs else natToString i.natAbs

/-! ## Data model -/

/-- The object pushed by `handleNewResetPhrase`: `{ id, text }`. -/
structure ResetPhrase where
  id : JSString
  text : JSString
  deriving DecidableEq

/-- The object created by `handleNewThought`: `{ id, text, resetPhrases }`. -/
structure Thought where
  id : JSString
  text : JSString
  resetPhrases : List ResetPhrase
  deriving DecidableEq

/-! ## JSON.stringify on the Thought list -/

/-- Lowercase hexadecimal digit of `d < 16`. -/
def hexDigit (d : Nat) : Nat := if d < 10 then 48 + d else 87 + d

/-- UnicodeEscape of ECMA-262: backslash, `u`, four lowercase hex digits. -/
def unicodeEscape (c : Nat) : JSString :=
  [92, 117, hexDigit (c / 4096 % 16), hexDigit (c / 256 % 16),
    hexDigit (c / 16 % 16), hexDigit (c % 16)]

/-- QuoteJSONString on one code point that is a single code unit which is not
part of a surrogate pair. -/
def quoteUnit (c : Nat) : JSString :=
  if c = 8 then [92, 98]
  else if c = 9 then [92, 116]
  else if c = 10 then [92, 110]
  else if c = 12 then [92, 102]
  else if c = 13 then [92, 114]
  else if c = 34 then [92, 34]
  else if c = 92 then [92, 92]
  else if c < 32 ∨ (55296 ≤ c ∧ c ≤ 57343) then unicodeEscape c
  else [c]

/-- QuoteJSONString without the surrounding quotes: walks the code points of
the string (a leading surrogate followed by a trailing surrogate is one code
point and is copied; a lone surrogate is escaped). -/
def quoteBody : JSString → JSString
  | [] => []
  | [c] => quoteUnit c
  | c :: d :: rest =>
    if (55296 ≤ c ∧ c ≤ 56319) ∧ (56320 ≤ d ∧ d ≤ 57343) then
      c :: d :: quoteBody rest
    else quoteUnit c ++ quoteBody (d :: rest)

/-- QuoteJSONString of ECMA-262. -/
def quoteJSONString (s : JSString) : JSString := 34 :: (quoteBody s ++ [34])

/-- Join the serialized elements with commas (SerializeJSONArray and
SerializeJSONObject with an empty gap). -/
def joinComma : List JSString → JSString
  | [] => []
  | [x] => x
  | x :: y :: rest => x ++ 44 :: joinComma (y :: rest)

/-- One member of SerializeJSONObject: the quoted property name, a colon, the
serialized property value. -/
def stringifyMember (key : String) (value : JSString) : JSString :=
  quoteJSONString (utf16 key) ++ 58 :: value

/-- SerializeJSONObject on a reset phrase: own properties in creation order
`id`, `text`. -/
def stringifyResetPhrase (rp : ResetPhrase) : JSString :=
  123 :: (joinComma [stringifyMember "id" (quoteJSONString rp.id),
    stringifyMember "text" (quoteJSONString rp.text)] ++ [125])

/-- SerializeJSONArray on a `resetPhrases` array. -/
def stringifyResetPhrases (rps : List ResetPhrase) : JSString :=
  91 :: (joinComma (rps.map stringifyResetPhrase) ++ [93])

/-- SerializeJSONObject on a Thought: own properties in creation order `id`,
`text`, `resetPhrases`. -/
def stringifyThought (t : Thought) : JSString :=
  123 :: (joinComma [stringifyMember "id" (quoteJSONString t.id),
    stringifyMember "text" (quoteJSONString t.text),
    stringifyMember "resetPhrases" (stringifyResetPhrases t.resetPhrases)] ++ [125])

/-- The call `JSON.stringify(thoughtsData)`. -/
def stringify (data : List Thought) : JSString :=
  91 :: (joinComma (data.map stringifyThought) ++ [93])

/-! ## JSON.parse -/

/-- The values `JSON.parse` builds.  A number is kept as its lexeme (its value
is an IEEE double, which the store never holds: ids are strings).  An object
is the list of its own properties in creation order (integer-like names, which
JavaScript enumerates first, do not occur in the Store). -/
inductive JVal where
  | null
  | bool (b : Bool)
  | num (lexeme : JSString)
  | str (s : JSString)
  | arr (items : List JVal)
  | obj (members : List (JSString × JVal))

/-- JSON white space between tokens: space, TAB, LF, CR. -/
def isJSONSpace (c : Nat) : Bool := c == 32 || c == 9 || c == 10 || c == 13

/-- Skip JSON white space. -/
def skipWs (s : JSString) : JSString := s.dropWhile isJSONSpace

/-- Value of a hexadecimal digit (either case). -/
def hexVal (c : Nat) : Option Nat :=
  if 48 ≤ c ∧ c ≤ 57 then some (c - 48)
  else if 97 ≤ c ∧ c ≤ 102 then some (c - 87)
  else if 65 ≤ c ∧ c ≤ 70 then some (c - 55)
  else none

/-- The code unit a single-character escape stands for. -/
def unescape (e : Nat) : Option Nat :=
  if e = 34 then some 34
  else if e = 92 then some 92
  else if e = 47 then some 47
  else if e = 98 then some 8
  else if e = 102 then some 12
  else if e = 110 then some 10
  else if e = 114 then some 13
  else if e = 116 then some 9
  else none

/-- JSONString after its opening quote: the string value and the input left
after the closing quote.  Raw code units below U+0020 are a SyntaxError. -/
def parseStringBody : JSString → Option (JSString × JSString)
  | [] => none
  | c :: rest =>
    if c = 34 then some ([], rest)
    else if c = 92 then
      match rest with
      | [] => none
      | e :: rest1 =>
        if e = 117 then
          match rest1 with
          | h1 :: h2 :: h3 :: h4 :: rest2 =>
            match hexVal h1, hexVal h2, hexVal h3, hexVal h4 with
            | some a, some b, some c, some d =>
              (parseStringBody rest2).map fun r =>
                ((4096 * a + 256 * b + 16 * c + d) :: r.1, r.2)
            | _, _, _, _ => none
          | _ => none
        else
          match unescape e with
          | some u => (parseStringBody rest1).map fun r => (u :: r.1, r.2)
          | none => none
    else if c < 32 then none
    else (parseStringBody rest).map fun r => (c :: r.1, r.2)

/-- Match a fixed run of code units at the head of the input. -/
def expect : JSString → JSString → Option JSString
  | [], s => some s
  | _ :: _, [] => none
  | c :: cs, d :: s => if c = d then expect cs s else none

/-- Decimal digit. -/
def isDigit (c : Nat) : Bool := 48 ≤ c && c ≤ 57

/-- One or more decimal digits. -/
def parseDigits (s : JSString) : Option (JSString × JSString) :=
  if s.takeWhile isDigit = [] then none
  else some (s.takeWhile isDigit, s.dropWhile isDigit)

/-- JSONNumber: optional minus, integer part without a leading zero, optional
fraction, optional exponent.  Yields the lexeme and the input left. -/
def parseNumber (s : JSString) : Option (JSString × JSString) :=
  let signed : JSString × JSString :=
    match s with
    | [] => ([], [])
    | c :: r => if c = 45 then ([45], r) else ([], c :: r)
  let int : Option (JSString × JSString) :=
    match signed.2 with
    | [] => none
    | c :: r =>
      if c = 48 then some (signed.1 ++ [48], r)
      else if 49 ≤ c ∧ c ≤ 57 then
        some (signed.1 ++ c :: r.takeWhile isDigit, r.dropWhile isDigit)
      else none
  let frac : Option (JSString × JSString) :=
    int.bind fun x =>
      match x.2 with
      | [] => some x
      | c :: r =>
        if c = 46 then (parseDigits r).map fun y => (x.1 ++ 46 :: y.1, y.2)
        else some x
  frac.bind fun x =>
    match x.2 with
    | [] => some x
    | c :: r =>
      if c = 101 ∨ c = 69 then
        match r with
        | [] => none
        | g :: r1 =>
          if g = 43 ∨ g = 45 then
            (parseDigits r1).map fun y => (x.1 ++ c :: g :: y.1, y.2)
          else (parseDigits (g :: r1)).map fun y => (x.1 ++ c :: y.1, y.2)
      else some x

/-- CreateDataProperty while an object is built: a repeated name overwrites
the value of the property already there. -/
def defineMember (ms : List (JSString × JVal)) (k : JSString) (v : JVal) :
    List (JSString × JVal) :=
  if ms.any (fun m => m.1 == k) then ms.map fun m => if m.1 == k then (k, v) else m
  else ms ++ [(k, v)]

mutual
/-- JSONValue with at most `fuel` nested calls: the value and the input left. -/
def parseValue : Nat → JSString → Option (JVal × JSString)
  | 0, _ => none
  | fuel + 1, s =>
    match skipWs s with
    | [] => none
    | c :: rest =>
      if c = 34 then (parseStringBody rest).map fun r => (JVal.str r.1, r.2)
      else if c = 91 then
        match skipWs rest with
        | [] => none
        | d :: rest1 =>
          if d = 93 then some (JVal.arr [], rest1)
          else (parseElements fuel rest).map fun r => (JVal.arr r.1, r.2)
      else if c = 123 then
        match skipWs rest with
        | [] => none
        | d :: rest1 =>
          if d = 125 then some (JVal.obj [], rest1)
          else (parseMembers fuel [] rest).map fun r => (JVal.obj r.1, r.2)
      else if c = 116 then (expect [114, 117, 101] rest).map fun r => (JVal.bool true, r)
      else if c = 102 then
        (expect [97, 108, 115, 101] rest).map fun r => (JVal.bool false, r)
      else if c = 110 then (expect [117, 108, 108] rest).map fun r => (JVal.null, r)
      else (parseNumber (c :: rest)).map fun r => (JVal.num r.1, r.2)
/-- JSONElementList up to and including the closing bracket. -/
def parseElements : Nat → JSString → Option (List JVal × JSString)
  | 0, _ => none
  | fuel + 1, s =>
    match parseValue fuel s with
    | none => none
    | some (v, r) =>
      match skipWs r with
      | [] => none
      | c :: r1 =>
        if c = 44 then (parseElements fuel r1).map fun x => (v :: x.1, x.2)
        else if c = 93 then some ([v], r1)
        else none
/-- JSONMemberList up to and including the closing brace; `acc` holds the
properties defined so far. -/
def parseMembers : Nat → List (JSString × JVal) → JSString →
    Option (List (JSString × JVal) × JSString)
  | 0, _, _ => none
  | fuel + 1, acc, s =>
    match skipWs s with
    | [] => none
    | q :: r0 =>
      if q = 34 then
        match parseStringBody r0 with
        | none => none
        | some (k, r1) =>
          match skipWs r1 with
          | [] => none
          | c :: r2 =>
            if c = 58 then
              match parseValue fuel r2 with
              | none => none
              | some (v, r3) =>
                match skipWs r3 with
                | [] => none
                | d :: r4 =>
                  if d = 44 then parseMembers fuel (defineMember acc k v) r4
                  else if d = 125 then some (defineMember acc k v, r4)
                  else none
            else none
      else none
end

/-- The call `JSON.parse(text)`: `none` stands for the SyntaxError thrown on
text that is not one JSON value.  The fuel covers every nesting depth the
text can have. -/
def parse (text : JSString) : Option JVal :=
  match parseValue (2 * text.length + 2) text with
  | none => none
  | some (v, r) => if skipWs r = [] then some v else none

/-- Read a parsed value as a reset phrase object `{ id, text }`. -/
def decodeResetPhrase : JVal → Option ResetPhrase
  | JVal.obj [(k1, JVal.str i), (k2, JVal.str t)] =>
    if k1 = utf16 "id" ∧ k2 = utf16 "text" then some ⟨i, t⟩ else none
  | _ => none

/-- Read every element of a parsed array with `f`. -/
def decodeAll {α : Type} (f : JVal → Option α) : List JVal → Option (List α)
  | [] => some []
  | v :: vs =>
    match f v, decodeAll f vs with
    | some a, some as => some (a :: as)
    | _, _ => none

/-- Read a parsed value as a Thought object `{ id, text, resetPhrases }`. -/
def decodeThought : JVal → Option Thought
  | JVal.obj [(k1, JVal.str i), (k2, JVal.str t), (k3, JVal.arr items)] =>
    if k1 = utf16 "id" ∧ k2 = utf16 "text" ∧ k3 = utf16 "resetPhrases" then
      (decodeAll decodeResetPhrase items).map fun rps => ⟨i, t, rps⟩
    else none
  | _ => none

/-- Read a parsed value as the Thought list the script works on; `none` when
the value is not an array of objects with the members `id`, `text`,
`resetPhrases` in the order `saveData` serializes them. -/
def decodeThoughts : JVal → Option (List Thought)
  | JVal.arr items => decodeAll decodeThought items
  | _ => none

/-! ## sessionStorage -/

/-- The key/value pairs of `sessionStorage`, in insertion order. -/
abbrev Storage := List (JSString × JSString)

/-- The call `sessionStorage.getItem(key)`: `none` is `null`. -/
def Storage.getItem (st : Storage) (key : JSString) : Option JSString :=
  (st.find? fun kv => kv.1 == key).map Prod.snd

/-- The call `sessionStorage.setItem(key, value)`: overwrite the value under
`key`, or add the pair. -/
def Storage.setItem (st : Storage) (key value : JSString) : Storage :=
  if st.any (fun kv => kv.1 == key) then
    st.map fun kv => if kv.1 == key then (key, value) else kv
  else st ++ [(key, value)]

/-- The constant `STORAGE_KEY` (line 21). -/
def STORAGE_KEY : JSString := utf16 "clearmindloopData"

/-! ## Page state -/

/-- Calls into the platform that the user or the storage observes. -/
inductive Effect where
  | alert (message : JSString)
  | setItem (key value : JSString)
  | clear
  deriving DecidableEq

/-- One card appended to `#thoughtList` by `renderThoughts`: the text of the
Thought span and of each reset phrase span.  Card `i` carries the buttons
bound to `thoughtsData[i]` and to its reset phrases. -/
structure Card where
  thoughtText : JSString
  resetItems : List JSString
  deriving DecidableEq

/-- Everything the script reads and writes: the global `thoughtsData`, the
storage, and the DOM elements of lines 9-18. -/
structure Page where
  /-- The content of `sessionStorage`. -/
  sessionStorage : Storage
  /-- The global `thoughtsData`. -/
  thoughtsData : List Thought
  /-- The value of `newThoughtInput`. -/
  newThoughtInput : JSString
  /-- The value of `newResetPhraseInput`. -/
  newResetPhraseInput : JSString
  /-- Whether `resetSection` has the class `hidden`. -/
  resetSectionHidden : Bool
  /-- The entry `resetSection.dataset.thoughtId`; `none` is `undefined`. -/
  thoughtId : Option JSString
  /-- The text content of `currentThoughtDisplay`. -/
  currentThoughtDisplay : JSString
  /-- The children of `thoughtList`. -/
  thoughtList : List Card
  /-- The platform calls made so far, oldest first. -/
  effects : List Effect
  deriving DecidableEq

/-! ## Functions of script.js -/

/-- Function `loadData` (lines 37-40): `json ? JSON.parse(json) : []`.  A
missing key (`null`) and the empty string are falsy.  `none` when
`JSON.parse` throws, and also when the parsed value is not an array of
objects with exactly the members the script writes: such a value cannot be
held in the typed Thought list of this embedding (the script would load it
as it is), and `saveData` never stores one. -/
def loadData (st : Storage) : Option (List Thought) :=
  match st.getItem STORAGE_KEY with
  | none => some []
  | some json => if json = [] then some [] else (parse json).bind decodeThoughts

/-- Function `saveData` (lines 43-45). -/
def saveData (p : Page) : Page :=
  { p with
    sessionStorage := p.sessionStorage.setItem STORAGE_KEY (stringify p.thoughtsData)
    effects := p.effects ++ [Effect.setItem STORAGE_KEY (stringify p.thoughtsData)] }

/-- The card built for one Thought by the body of the `forEach` in
`renderThoughts` (lines 121-191): the inner `forEach` appends one item
`- text` per reset phrase. -/
def renderCard (thought : Thought) : Card :=
  { thoughtText := thought.text
    resetItems := thought.resetPhrases.foldl
      (fun items rp => items ++ [utf16 "- " ++ rp.text]) [] }

/-- Function `renderThoughts` (lines 117-192): empty the list element, then
append one card per Thought, walking `thoughtsData` from index 0. -/
def renderThoughts (p : Page) : Page :=
  { p with
    thoughtList := p.thoughtsData.foldl (fun cards t => cards ++ [renderCard t]) [] }

/-- Function `showResetSection` (lines 77-85). -/
def showResetSection (thought : Thought) (p : Page) : Page :=
  { p with
    currentThoughtDisplay := utf16 "Thought: \"" ++ thought.text ++ utf16 "\""
    resetSectionHidden := false
    thoughtId := some thought.id
    newResetPhraseInput := [] }

/-- Function `handleNewThought` (lines 48-74); `now` is the value `Date.now()`
returns. -/
def handleNewThought (now : Int) (p : Page) : Page :=
  let text := trim p.newThoughtInput
  if text = [] then
    { p with effects := p.effects ++
        [Effect.alert (utf16 "Please enter at least one character for your thought.")] }
  else
    let newThought : Thought := { id := numberToString now, text := text, resetPhrases := [] }
    let p1 := saveData { p with thoughtsData := newThought :: p.thoughtsData }
    let p2 := { p1 with newThoughtInput := [] }
    renderThoughts (showResetSection newThought p2)

/-- The in-place update `thought.resetPhrases.push(rp)` on the object that
`thoughtsData.find((t) => t.id === thoughtId)` returned: the first Thought
with that id. -/
def pushResetPhrase (thoughtId : JSString) (rp : ResetPhrase) : List Thought → List Thought
  | [] => []
  | t :: ts =>
    if t.id = thoughtId then { t with resetPhrases := t.resetPhrases ++ [rp] } :: ts
    else t :: pushResetPhrase thoughtId rp ts

/-- Function `handleNewResetPhrase` (lines 88-114); `now` is the value
`Date.now()` returns. -/
def handleNewResetPhrase (now : Int) (p : Page) : Page :=
  let phrase := trim p.newResetPhraseInput
  if phrase = [] then
    { p with effects := p.effects ++
        [Effect.alert (utf16 "Please enter at least one character for your reset phrase.")] }
  else
    match p.thoughtId with
    | none => p
    | some thoughtId =>
      match p.thoughtsData.find? (fun t => t.id == thoughtId) with
      | none => p
      | some _ =>
        let rp : ResetPhrase := { id := numberToString now, text := phrase }
        let p1 := saveData
          { p with thoughtsData := pushResetPhrase thoughtId rp p.thoughtsData }
        let p2 := { p1 with newResetPhraseInput := [], resetSectionHidden := true }
        renderThoughts p2

/-- The click listener of `editThoughtBtn` on card `i` (lines 137-144);
`response` is what `prompt` returns, `none` for `null`.  No card, no button. -/
def editThoughtClick (i : Nat) (response : Option JSString) (p : Page) : Page :=
  match p.thoughtsData[i]? with
  | none => p
  | some thought =>
    match response with
    | none => p
    | some newText =>
      if trim newText ≠ [] then
        let edited : Thought := { thought with text := trim newText }
        renderThoughts (saveData { p with thoughtsData := p.thoughtsData.set i edited })
      else p

/-- The click listener of `editResetBtn` on item `j` of card `i` (lines
164-171); `response` is what `prompt` returns, `none` for `null`. -/
def editResetClick (i j : Nat) (response : Option JSString) (p : Page) : Page :=
  match p.thoughtsData[i]? with
  | none => p
  | some thought =>
    match thought.resetPhrases[j]? with
    | none => p
    | some rp =>
      match response with
      | none => p
      | some newRpText =>
        if trim newRpText ≠ [] then
          let editedRp : ResetPhrase := { rp with text := trim newRpText }
          let edited : Thought :=
            { thought with resetPhrases := thought.resetPhrases.set j editedRp }
          renderThoughts (saveData { p with thoughtsData := p.thoughtsData.set i edited })
        else p

/-- The click listener of `addResetBtn` on card `i` (line 183). -/
def addResetClick (i : Nat) (p : Page) : Page :=
  match p.thoughtsData[i]? with
  | none => p
  | some thought => showResetSection thought p

/-- The text `exportDataAsTxt` (lines 195-206) builds and hands to the Blob:
the two `forEach` loops append to `txtContent`, each with its index. -/
def exportDataAsTxt (p : Page) : JSString :=
  (p.thoughtsData.foldl
    (fun (acc : JSString × Nat) thought =>
      let txt1 := acc.1 ++ utf16 "Thought " ++ natToString (acc.2 + 1) ++ utf16 ": " ++
        thought.text ++ utf16 "\n"
      let txt2 :=
        if thought.resetPhrases.length > 0 then
          (thought.resetPhrases.foldl
            (fun (a : JSString × Nat) rp =>
              (a.1 ++ utf16 "  Reset Phrase " ++ natToString (a.2 + 1) ++ utf16 ": " ++
                rp.text ++ utf16 "\n", a.2 + 1))
            (txt1, 0)).1
        else txt1
      (txt2 ++ utf16 "\n", acc.2 + 1))
    (utf16 "ClearMindLoop Export\n\n", 0)).1

/-! ## Page start -/

/-- Evaluation of the script body (lines 3-30) on the page as the browser
hands it over: the load listener is registered (line 4), `thoughtsData` is
initialised from `loadData()` (line 22), the click listeners are attached and
`renderThoughts()` runs (line 30).  `none` when `loadData` is `none`. -/
def runScript (p : Page) : Option Page :=
  (loadData p.sessionStorage).map fun data =>
    renderThoughts { p with thoughtsData := data }

/-- The listener registered at line 4, run when the window fires `load`. -/
def onLoad (p : Page) : Page :=
  { p with sessionStorage := [], effects := p.effects ++ [Effect.clear] }

/-- A page load: the script body runs to completion, then the `load` event is
dispatched (the event fires once the document and its scripts are done). -/
def pageLoad (p : Page) : Option Page := (runScript p).map onLoad

/-! ## User actions -/

/-- What the user can do on the page.  The handlers that read the clock
carry the reading. -/
inductive Action where
  | typeThought (value : JSString)
  | typeResetPhrase (value : JSString)
  | submitThought (now : Int)
  | addResetPhrase (now : Int)
  | openResetSection (i : Nat)
  | editThought (i : Nat) (response : Option JSString)
  | editResetPhrase (i j : Nat) (response : Option JSString)

/-- The effect of one action on the page. -/
def step (p : Page) : Action → Page
  | Action.typeThought value => { p with newThoughtInput := value }
  | Action.typeResetPhrase value => { p with newResetPhraseInput := value }
  | Action.submitThought now => handleNewThought now p
  | Action.addResetPhrase now => handleNewResetPhrase now p
  | Action.openResetSection i => addResetClick i p
  | Action.editThought i response => editThoughtClick i response p
  | Action.editResetPhrase i j response => editResetClick i j response p

/-- Run a sequence of actions, first to last. -/
def run (p : Page) (actions : List Action) : Page := actions.foldl step p

/-- The clock readings carried by a sequence of actions, in order. -/
def clockReadings : List Action → List Int
  | [] => []
  | Action.submitThought now :: rest => now :: clockReadings rest
  | Action.addResetPhrase now :: rest => now :: clockReadings rest
  | _ :: rest => clockReadings rest

/-- A page with an empty Store: no Thought, empty storage, empty inputs, the
reset section closed. -/
def emptyPage : Page :=
  { sessionStorage := []
    thoughtsData := []
    newThoughtInput := []
    newResetPhraseInput := []
    resetSectionHidden := true
    thoughtId := none
    currentThoughtDisplay := []
    thoughtList := []
    effects := [] }

/-- The guard of both edit listeners: `newText !== null && newText.trim() !== ""`. -/
def accepted : Option JSString → Bool
  | none => false
  | some newText => trim newText != []

/-! ## Concrete pages used in the examples -/

/-- The empty page with ` A ` typed into the thought input. -/
def pageTypedA : Page := { emptyPage with newThoughtInput := utf16 " A " }

/-- A page with both inputs blank. -/
def pageBlankInputs : Page :=
  { emptyPage with newThoughtInput := utf16 "  ", newResetPhraseInput := utf16 " \n" }

/-- A page holding two Thoughts, the first with two reset phrases and the
reset section targeted at the second; ` calm ` typed into the phrase input. -/
def pageTwoThoughts : Page :=
  { emptyPage with
    thoughtsData :=
      [⟨utf16 "1002", utf16 "B", [⟨utf16 "1003", utf16 "x"⟩, ⟨utf16 "1004", utf16 "y"⟩]⟩,
        ⟨utf16 "1000", utf16 "A", []⟩]
    thoughtId := some (utf16 "1000")
    newResetPhraseInput := utf16 " calm " }

/-- A page whose reset section targets an id no Thought has, with a blank
phrase typed. -/
def pageUnmatchedBlank : Page :=
  { emptyPage with
    thoughtsData := [⟨utf16 "1000", utf16 "A", []⟩]
    thoughtId := some (utf16 "42")
    newResetPhraseInput := utf16 "  " }

/-- A page whose reset section targets an id no Thought has, with a phrase
typed. -/
def pageUnmatched : Page :=
  { emptyPage with
    thoughtsData := [⟨utf16 "1000", utf16 "A", []⟩]
    thoughtId := some (utf16 "42")
    newResetPhraseInput := utf16 "calm" }

/-- The page after the Thought "A" was added to the empty page at clock
reading 1000. -/
def pageAfterA : Page :=
  run emptyPage [Action.typeThought (utf16 "A"), Action.submitThought 1000]

/-! ## The export format -/

/-- Terminate every line with a line feed and concatenate. -/
def unlines (lines : List JSString) : JSString := lines.flatMap fun l => l ++ [10]

/-- The line of reset phrase `rp` at index `j` of its list. -/
def resetPhraseLine (j : Nat) (rp : ResetPhrase) : JSString :=
  utf16 "  Reset Phrase " ++ natToString (j + 1) ++ utf16 ": " ++ rp.text

/-- The block of the Thought at index `i` of the Store: its line, one line per
reset phrase in stored order, and a blank line. -/
def thoughtBlock (i : Nat) (t : Thought) : List JSString :=
  (utf16 "Thought " ++ natToString (i + 1) ++ utf16 ": " ++ t.text) ::
    (t.resetPhrases.enum.map fun jr => resetPhraseLine jr.1 jr.2) ++ [[]]

/-- The lines of the export: the header line, a blank line, and the block of
every Thought in store order. -/
def exportLines (data : List Thought) : List JSString :=
  utf16 "ClearMindLoop Export" :: [] :: data.enum.flatMap fun it => thoughtBlock it.1 it.2

/-- The actions of the export scenario: add the Thought, then add the reset
phrase to it. -/
def quitSmokingActions (now1 now2 : Int) : List Action :=
  [Action.typeThought (utf16 "Quit smoking"), Action.submitThought now1,
    Action.typeResetPhrase (utf16 "I am stronger than this urge"),
    Action.addResetPhrase now2]

/-! ## Store invariants -/

/-- No Thought and no reset phrase of the list has a text that is empty after
trimming. -/
def textsNonEmpty (data : List Thought) : Prop :=
  ∀ t ∈ data, trim t.text ≠ [] ∧ ∀ rp ∈ t.resetPhrases, trim rp.text ≠ []

/-- Thought ids are pairwise distinct, and so are the reset phrase ids within
each Thought. -/
def idsDistinct (data : List Thought) : Prop :=
  (data.map Thought.id).Nodup ∧ ∀ t ∈ data, (t.resetPhrases.map ResetPhrase.id).Nodup

/-- Arbitrary actions that exercise every handler, blank inputs included. -/
def mixedActions : List Action :=
  [Action.typeThought (utf16 "  "), Action.submitThought 1000,
    Action.typeThought (utf16 " A "), Action.submitThought 1000,
    Action.typeResetPhrase (utf16 " x "), Action.addResetPhrase 1000,
    Action.editThought 0 (some (utf16 " ")), Action.editThought 0 (some (utf16 "B")),
    Action.editResetPhrase 0 0 none, Action.editResetPhrase 0 0 (some (utf16 " y")),
    Action.openResetSection 0, Action.typeResetPhrase (utf16 ""), Action.addResetPhrase 1001]

/-- Every id of the list is the decimal form of one of the clock readings
`used`. -/
def idsIssued (used : List Int) (data : List Thought) : Prop :=
  ∀ t ∈ data, (∃ r ∈ used, t.id = numberToString r) ∧
    ∀ rp ∈ t.resetPhrases, ∃ r ∈ used, rp.id = numberToString r

/-- Two Thoughts added while the clock reads the same millisecond. -/
def sameClockActions : List Action :=
  [Action.typeThought (utf16 "A"), Action.submitThought 1000,
    Action.typeThought (utf16 "B"), Action.submitThought 1000]

/-- Two Thoughts and two reset phrases added at four different clock
readings. -/
def distinctClockActions : List Action :=
  [Action.typeThought (utf16 "A"), Action.submitThought 1000,
    Action.typeResetPhrase (utf16 "x"), Action.addResetPhrase 1001,
    Action.openResetSection 0,
    Action.typeResetPhrase (utf16 "y"), Action.addResetPhrase 1002,
    Action.typeThought (utf16 "B"), Action.submitThought 1003]

/-! ## The JSON value of the Store -/

/-- The value `JSON.parse` builds for a serialized reset phrase. -/
def resetPhraseValue (rp : ResetPhrase) : JVal :=
  JVal.obj [(utf16 "id", JVal.str rp.id), (utf16 "text", JVal.str rp.text)]

/-- The value `JSON.parse` builds for a serialized Thought. -/
def thoughtValue (t : Thought) : JVal :=
  JVal.obj [(utf16 "id", JVal.str t.id), (utf16 "text", JVal.str t.text),
    (utf16 "resetPhrases", JVal.arr (t.resetPhrases.map resetPhraseValue))]

/-- With fuel `cost` or more, `parseValue` reads `text` off the front of any
input as the value `v`. -/
def ParsesTo (cost : Nat) (text : JSString) (v : JVal) : Prop :=
  ∀ n tail, cost ≤ n → parseValue n (text ++ tail) = some (v, tail)

/-- Fuel that suffices to parse a serialized Thought. -/
def thoughtCost (t : Thought) : Nat := 5 * t.resetPhrases.length + 5

/-! ## Reloading the tab -/

/-- The page the browser hands to the script when the tab that showed `p` is
reloaded: a fresh document, the same `sessionStorage`. -/
def reload (p : Page) : Page := { emptyPage with sessionStorage := p.sessionStorage }

/-- A tab is opened, the Thought "A" is added, and the tab is reloaded. -/
def secondLoad : Option Page :=
  (pageLoad emptyPage).bind fun p =>
    pageLoad (reload (run p [Action.typeThought (utf16 "A"), Action.submitThought 1000]))

/-! ## Rendering and update lemmas -/

theorem foldl_append_singleton {α β : Type} (f : α → β) (l : List α) (init : List β) :
    l.foldl (fun acc x => acc ++ [f x]) init = init ++ l.map f := by
  induction l generalizing init with
  | nil => simp
  | cons x xs ih => simp [ih]

theorem renderThoughts_thoughtList (p : Page) :
    (renderThoughts p).thoughtList = p.thoughtsData.map renderCard := by
  simp [renderThoughts, foldl_append_singleton]

@[simp] theorem renderThoughts_thoughtsData (p : Page) :
    (renderThoughts p).thoughtsData = p.thoughtsData := rfl

@[simp] theorem renderThoughts_sessionStorage (p : Page) :
    (renderThoughts p).sessionStorage = p.sessionStorage := rfl

@[simp] theorem renderThoughts_effects (p : Page) :
    (renderThoughts p).effects = p.effects := rfl

@[simp] theorem renderCard_thoughtText (t : Thought) :
    (renderCard t).thoughtText = t.text := rfl

theorem handleNewThought_thoughtsData (now : Int) (p : Page)
    (h : trim p.newThoughtInput ≠ []) :
    (handleNewThought now p).thoughtsData =
      { id := numberToString now, text := trim p.newThoughtInput, resetPhrases := [] } ::
        p.thoughtsData := by
  simp [handleNewThought, h, showResetSection, saveData]

theorem renderCard_resetItems (t : Thought) :
    (renderCard t).resetItems = t.resetPhrases.map fun rp => utf16 "- " ++ rp.text := by
  simp [renderCard, foldl_append_singleton]

theorem pushResetPhrase_length (thoughtId : JSString) (rp : ResetPhrase) (l : List Thought) :
    (pushResetPhrase thoughtId rp l).length = l.length := by
  induction l with
  | nil => rfl
  | cons t ts ih =>
    by_cases h : t.id = thoughtId <;> simp [pushResetPhrase, h, ih]

theorem pushResetPhrase_getElem? (thoughtId : JSString) (rp : ResetPhrase) (l : List Thought)
    (i : Nat) (t : Thought) (hi : l[i]? = some t) (hid : t.id = thoughtId)
    (hfirst : ∀ k u, k < i → l[k]? = some u → u.id ≠ thoughtId) :
    (pushResetPhrase thoughtId rp l)[i]? =
        some { t with resetPhrases := t.resetPhrases ++ [rp] } ∧
      ∀ k, k ≠ i → (pushResetPhrase thoughtId rp l)[k]? = l[k]? := by
  induction l generalizing i with
  | nil => simp at hi
  | cons a as ih =>
    cases i with
    | zero =>
      simp at hi
      subst hi
      simp [pushResetPhrase, hid]
      intro k hk
      cases k with
      | zero => exact absurd rfl hk
      | succ k => simp
    | succ i =>
      have ha : a.id ≠ thoughtId := hfirst 0 a (Nat.succ_pos i) (by simp)
      simp at hi
      have := ih i hi (fun k u hk hu => hfirst (k + 1) u (by omega) (by simpa using hu))
      simp [pushResetPhrase, ha, this.1]
      intro k hk
      cases k with
      | zero => simp
      | succ k => simpa using this.2 k (by omega)

theorem find?_isSome_of_getElem? (thoughtId : JSString) (l : List Thought) (i : Nat)
    (t : Thought) (hi : l[i]? = some t) (hid : t.id = thoughtId) :
    ∃ u, l.find? (fun t => t.id == thoughtId) = some u := by
  have hmem : t ∈ l := List.getElem?_mem hi
  cases h : l.find? (fun t => t.id == thoughtId) with
  | some u => exact ⟨u, rfl⟩
  | none =>
    rw [List.find?_eq_none] at h
    exact absurd (by simpa using hid) (h t hmem)

theorem find?_eq_none_of_unmatched (thoughtId : JSString) (l : List Thought)
    (h : ∀ t ∈ l, t.id ≠ thoughtId) :
    l.find? (fun t => t.id == thoughtId) = none := by
  rw [List.find?_eq_none]
  intro t ht
  simpa using h t ht

/-! ## Adding a Thought -/

/-- C1: when the trimmed input is non-empty, `handleNewThought` makes the
Thought list one longer, puts the new Thought (trimmed text, no reset phrase)
at index 0 and keeps the previous Thoughts, in order, at indices 1 and up;
`renderThoughts` shows the cards in that order, so adding "A" and then "B" to an
empty Store shows B before A. -/
theorem handleNewThought_inserts_at_front (now : Int) (p : Page)
    (h : trim p.newThoughtInput ≠ []) :
    (handleNewThought now p).thoughtsData.length = p.thoughtsData.length + 1 ∧
    (handleNewThought now p).thoughtsData[0]? =
      some { id := numberToString now, text := trim p.newThoughtInput, resetPhrases := [] } ∧
    (∀ k, (handleNewThought now p).thoughtsData[k + 1]? = p.thoughtsData[k]?) ∧
    (handleNewThought now p).thoughtList.map Card.thoughtText =
      (handleNewThought now p).thoughtsData.map Thought.text ∧
    (∀ (nowA nowB : Int) (p0 : Page), p0.thoughtsData = [] →
      (run p0 [Action.typeThought (utf16 "A"), Action.submitThought nowA,
        Action.typeThought (utf16 "B"), Action.submitThought nowB]).thoughtsData.map
          Thought.text = [utf16 "B", utf16 "A"] ∧
      (run p0 [Action.typeThought (utf16 "A"), Action.submitThought nowA,
        Action.typeThought (utf16 "B"), Action.submitThought nowB]).thoughtList.map
          Card.thoughtText = [utf16 "B", utf16 "A"]) := by
  have hA : trim (utf16 "A") = utf16 "A" := by decide
  have hB : trim (utf16 "B") = utf16 "B" := by decide
  have hA0 : utf16 "A" ≠ [] := by decide
  have hB0 : utf16 "B" ≠ [] := by decide
  have hq := handleNewThought_thoughtsData now p h
  refine ⟨?_, ?_, ?_, ?_, ?_⟩
  · simp [hq]
  · simp [hq]
  · intro k
    simp [hq]
  · simp [handleNewThought, h, renderThoughts_thoughtList, showResetSection, saveData,
      Function.comp_def]
  · intro nowA nowB p0 h0
    simp [run, step, handleNewThought, hA, hB, hA0, hB0, renderThoughts_thoughtList,
      showResetSection, saveData, h0, Function.comp_def]

/-- Witness for C1: ` A ` typed on the empty page. -/
theorem handleNewThought_inserts_at_front_witness :
    trim pageTypedA.newThoughtInput ≠ [] ∧
    (handleNewThought 1000 pageTypedA).thoughtsData.length =
      pageTypedA.thoughtsData.length + 1 ∧
    (handleNewThought 1000 pageTypedA).thoughtsData[0]? =
      some { id := numberToString 1000, text := trim pageTypedA.newThoughtInput,
             resetPhrases := [] } :=
  ⟨by decide,
    (handleNewThought_inserts_at_front 1000 pageTypedA (by decide)).1,
    (handleNewThought_inserts_at_front 1000 pageTypedA (by decide)).2.1⟩

/-! ## Blank input -/

/-- C2: when the input is empty after trimming, `handleNewThought` and
`handleNewResetPhrase` leave the Thought list, the storage and the input as
they are and show one alert; nothing else on the page changes. -/
theorem blank_input_is_rejected (now : Int) (p : Page) :
    (trim p.newThoughtInput = [] →
      (handleNewThought now p).thoughtsData = p.thoughtsData ∧
      (handleNewThought now p).sessionStorage = p.sessionStorage ∧
      (handleNewThought now p).newThoughtInput = p.newThoughtInput ∧
      (handleNewThought now p).effects = p.effects ++
        [Effect.alert (utf16 "Please enter at least one character for your thought.")] ∧
      handleNewThought now p = { p with effects := (handleNewThought now p).effects }) ∧
    (trim p.newResetPhraseInput = [] →
      (handleNewResetPhrase now p).thoughtsData = p.thoughtsData ∧
      (handleNewResetPhrase now p).sessionStorage = p.sessionStorage ∧
      (handleNewResetPhrase now p).newResetPhraseInput = p.newResetPhraseInput ∧
      (handleNewResetPhrase now p).effects = p.effects ++
        [Effect.alert
          (utf16 "Please enter at least one character for your reset phrase.")] ∧
      handleNewResetPhrase now p =
        { p with effects := (handleNewResetPhrase now p).effects }) := by
  constructor
  · intro h
    simp [handleNewThought, h]
  · intro h
    simp [handleNewResetPhrase, h]

/-- Witness for C2: both inputs hold only white space. -/
theorem blank_input_is_rejected_witness :
    trim pageBlankInputs.newThoughtInput = [] ∧
    trim pageBlankInputs.newResetPhraseInput = [] ∧
    (handleNewThought 1000 pageBlankInputs).thoughtsData = pageBlankInputs.thoughtsData ∧
    (handleNewResetPhrase 1000 pageBlankInputs).thoughtsData =
      pageBlankInputs.thoughtsData :=
  ⟨by decide, by decide,
    ((blank_input_is_rejected 1000 pageBlankInputs).1 (by decide)).1,
    ((blank_input_is_rejected 1000 pageBlankInputs).2 (by decide)).1⟩

/-! ## Adding a reset phrase -/

/-- C3: when the phrase is non-empty after trimming and the target id
resolves to the Thought at index `i` (the first with that id),
`handleNewResetPhrase` appends one reset phrase with the trimmed text at the
end of that Thought's list and changes nothing else in the Thought list. -/
theorem handleNewResetPhrase_appends (now : Int) (p : Page) (thoughtId : JSString)
    (i : Nat) (t : Thought)
    (hphrase : trim p.newResetPhraseInput ≠ [])
    (htarget : p.thoughtId = some thoughtId)
    (hi : p.thoughtsData[i]? = some t) (hid : t.id = thoughtId)
    (hfirst : ∀ k u, k < i → p.thoughtsData[k]? = some u → u.id ≠ thoughtId) :
    (handleNewResetPhrase now p).thoughtsData.length = p.thoughtsData.length ∧
    (handleNewResetPhrase now p).thoughtsData[i]? =
      some { id := t.id, text := t.text,
             resetPhrases := t.resetPhrases ++
               [{ id := numberToString now, text := trim p.newResetPhraseInput }] } ∧
    (∀ k, k ≠ i → (handleNewResetPhrase now p).thoughtsData[k]? = p.thoughtsData[k]?) := by
  obtain ⟨u, hu⟩ := find?_isSome_of_getElem? thoughtId p.thoughtsData i t hi hid
  have hdata : (handleNewResetPhrase now p).thoughtsData =
      pushResetPhrase thoughtId
        { id := numberToString now, text := trim p.newResetPhraseInput } p.thoughtsData := by
    simp [handleNewResetPhrase, hphrase, htarget, hu, renderThoughts, saveData]
  rw [hdata]
  have := pushResetPhrase_getElem? thoughtId
    { id := numberToString now, text := trim p.newResetPhraseInput } p.thoughtsData i t hi hid
    hfirst
  exact ⟨pushResetPhrase_length _ _ _, this.1, this.2⟩

/-- Witness for C3: the reset section targets the second of two Thoughts. -/
theorem handleNewResetPhrase_appends_witness :
    trim pageTwoThoughts.newResetPhraseInput ≠ [] ∧
    pageTwoThoughts.thoughtsData[1]? = some ⟨utf16 "1000", utf16 "A", []⟩ ∧
    (handleNewResetPhrase 1005 pageTwoThoughts).thoughtsData[1]? =
      some { id := utf16 "1000", text := utf16 "A",
             resetPhrases := [] ++
               [{ id := numberToString 1005,
                  text := trim pageTwoThoughts.newResetPhraseInput }] } :=
  ⟨by decide, by decide,
    (handleNewResetPhrase_appends 1005 pageTwoThoughts (utf16 "1000") 1
      ⟨utf16 "1000", utf16 "A", []⟩ (by decide) (by decide) (by decide) (by decide)
      (by
        intro k u hk hu
        have hk0 : k = 0 := by omega
        subst hk0
        have : u = ⟨utf16 "1002", utf16 "B",
            [⟨utf16 "1003", utf16 "x"⟩, ⟨utf16 "1004", utf16 "y"⟩]⟩ := by
          simpa [pageTwoThoughts, emptyPage] using hu.symm
        subst this
        decide)).2.1⟩

/-- Counterexample to C4 as stated: the target id matches no Thought, the
phrase is blank, and the alert is shown. -/
theorem blank_phrase_alerts_before_lookup :
    (∀ t ∈ pageUnmatchedBlank.thoughtsData, some t.id ≠ pageUnmatchedBlank.thoughtId) ∧
    (handleNewResetPhrase 1000 pageUnmatchedBlank).effects =
      pageUnmatchedBlank.effects ++
        [Effect.alert
          (utf16 "Please enter at least one character for your reset phrase.")] := by
  decide

/-- C4 (amended): when the target id matches no Thought, `handleNewResetPhrase`
never changes the Thought list or the storage; when moreover the phrase is
non-empty after trimming it changes nothing at all and shows no alert. -/
theorem handleNewResetPhrase_unmatched (now : Int) (p : Page)
    (hno : ∀ t ∈ p.thoughtsData, some t.id ≠ p.thoughtId) :
    (handleNewResetPhrase now p).thoughtsData = p.thoughtsData ∧
    (handleNewResetPhrase now p).sessionStorage = p.sessionStorage ∧
    (trim p.newResetPhraseInput ≠ [] → handleNewResetPhrase now p = p) := by
  have key : trim p.newResetPhraseInput ≠ [] → handleNewResetPhrase now p = p := by
    intro hphrase
    cases hid : p.thoughtId with
    | none => simp [handleNewResetPhrase, hphrase, hid]
    | some thoughtId =>
      have hnone := find?_eq_none_of_unmatched thoughtId p.thoughtsData
        (fun t ht heq => hno t ht (by rw [hid, heq]))
      simp [handleNewResetPhrase, hphrase, hid, hnone]
  by_cases hphrase : trim p.newResetPhraseInput = []
  · refine ⟨?_, ?_, fun h => absurd hphrase h⟩ <;> simp [handleNewResetPhrase, hphrase]
  · rw [key hphrase]
    exact ⟨rfl, rfl, fun _ => rfl⟩

/-- Witness for C4 (amended): a phrase typed while the target id matches no
Thought. -/
theorem handleNewResetPhrase_unmatched_witness :
    (∀ t ∈ pageUnmatched.thoughtsData, some t.id ≠ pageUnmatched.thoughtId) ∧
    trim pageUnmatched.newResetPhraseInput ≠ [] ∧
    handleNewResetPhrase 1000 pageUnmatched = pageUnmatched :=
  ⟨by decide, by decide,
    (handleNewResetPhrase_unmatched 1000 pageUnmatched (by decide)).2.2 (by decide)⟩

/-! ## Editing -/

theorem append_singleton_ne_self {α : Type} (l : List α) (a : α) : l ++ [a] ≠ l := by
  intro h
  have := congrArg List.length h
  simp at this

theorem editThoughtClick_rejected (i : Nat) (response : Option JSString) (p : Page)
    (h : accepted response = false) : editThoughtClick i response p = p := by
  unfold editThoughtClick
  cases p.thoughtsData[i]? with
  | none => rfl
  | some t =>
    cases response with
    | none => rfl
    | some s =>
      have : trim s = [] := by simpa [accepted] using h
      simp [this]

theorem editResetClick_rejected (i j : Nat) (response : Option JSString) (p : Page)
    (h : accepted response = false) : editResetClick i j response p = p := by
  cases hi : p.thoughtsData[i]? with
  | none => simp [editResetClick, hi]
  | some t =>
    cases hj : t.resetPhrases[j]? with
    | none => simp [editResetClick, hi, hj]
    | some rp =>
      cases response with
      | none => simp [editResetClick, hi, hj]
      | some s =>
        have : trim s = [] := by simpa [accepted] using h
        simp [editResetClick, hi, hj, this]

theorem editThoughtClick_accepted (i : Nat) (s : JSString) (p : Page) (t : Thought)
    (hi : p.thoughtsData[i]? = some t) (hs : trim s ≠ []) :
    editThoughtClick i (some s) p =
      renderThoughts (saveData
        { p with thoughtsData := p.thoughtsData.set i ⟨t.id, trim s, t.resetPhrases⟩ }) := by
  simp [editThoughtClick, hi, hs]

theorem editResetClick_accepted (i j : Nat) (s : JSString) (p : Page) (t : Thought)
    (rp : ResetPhrase) (hi : p.thoughtsData[i]? = some t) (hj : t.resetPhrases[j]? = some rp)
    (hs : trim s ≠ []) :
    editResetClick i j (some s) p =
      renderThoughts (saveData
        { p with thoughtsData := (p.thoughtsData.set i
            ⟨t.id, t.text, t.resetPhrases.set j ⟨rp.id, trim s⟩⟩) }) := by
  simp [editResetClick, hi, hj, hs]

theorem getElem?_set_self_of_some {α : Type} (l : List α) (i : Nat) (a b : α)
    (h : l[i]? = some a) : (l.set i b)[i]? = some b := by
  have hlt : i < l.length := by
    rcases List.getElem?_eq_some.mp h with ⟨hlt, _⟩
    exact hlt
  simp [List.getElem?_set, hlt]

theorem getElem?_set_of_ne {α : Type} (l : List α) (i k : Nat) (b : α) (h : k ≠ i) :
    (l.set i b)[k]? = l[k]? := by
  have h2 : ¬ i = k := fun e => h e.symm
  simp [List.getElem?_set, h2]

theorem set_eq_self_of_getElem? {α : Type} (l : List α) (i : Nat) (a : α)
    (h : l[i]? = some a) : l.set i a = l := by
  induction l generalizing i with
  | nil => rfl
  | cons x xs ih =>
    cases i with
    | zero =>
      simp at h
      subst h
      rfl
    | succ i =>
      simp at h
      simp [ih i h]

theorem editThoughtClick_thoughtsData (i : Nat) (s : JSString) (p : Page) (t : Thought)
    (hi : p.thoughtsData[i]? = some t) (hs : trim s ≠ []) :
    (editThoughtClick i (some s) p).thoughtsData =
      p.thoughtsData.set i ⟨t.id, trim s, t.resetPhrases⟩ := by
  rw [editThoughtClick_accepted i s p t hi hs]
  rfl

theorem editResetClick_thoughtsData (i j : Nat) (s : JSString) (p : Page) (t : Thought)
    (rp : ResetPhrase) (hi : p.thoughtsData[i]? = some t) (hj : t.resetPhrases[j]? = some rp)
    (hs : trim s ≠ []) :
    (editResetClick i j (some s) p).thoughtsData =
      p.thoughtsData.set i ⟨t.id, t.text, t.resetPhrases.set j ⟨rp.id, trim s⟩⟩ := by
  rw [editResetClick_accepted i j s p t rp hi hj hs]
  rfl

/-- Counterexample to C6 as stated: on the page that holds the Thought "A",
the response "A" (the text the prompt is pre-filled with) is non-null and
non-empty after trimming, and the edit leaves the Thought list, the storage
and the rendered cards as they were. -/
theorem edit_with_current_text_keeps_store :
    pageAfterA.thoughtsData[0]? = some ⟨utf16 "1000", utf16 "A", []⟩ ∧
    accepted (some (utf16 "A")) = true ∧
    (editThoughtClick 0 (some (utf16 "A")) pageAfterA).thoughtsData =
      pageAfterA.thoughtsData ∧
    (editThoughtClick 0 (some (utf16 "A")) pageAfterA).sessionStorage =
      pageAfterA.sessionStorage ∧
    (editThoughtClick 0 (some (utf16 "A")) pageAfterA).thoughtList =
      pageAfterA.thoughtList := by
  decide

/-- C6 (amended): a null or blank prompt response leaves the whole page, the
Store included, as it was.  Any other response replaces the text of the
edited Thought (or reset phrase) by the trimmed response, keeps its id, its
position, the Thought's reset phrases (or the other phrases of the list) and
every other Thought, and saves the list.  So the Thought list changes exactly
when the response is non-null, non-empty after trimming and its trimmed form
differs from the current text. -/
theorem edit_changes_store_iff (i j : Nat) (response : Option JSString) (p : Page) :
    (accepted response = false →
      editThoughtClick i response p = p ∧ editResetClick i j response p = p) ∧
    (∀ t, p.thoughtsData[i]? = some t →
      ((editThoughtClick i response p).thoughtsData ≠ p.thoughtsData ↔
        ∃ s, response = some s ∧ trim s ≠ [] ∧ trim s ≠ t.text) ∧
      ∀ s, response = some s → trim s ≠ [] →
        (editThoughtClick i response p).thoughtsData.length = p.thoughtsData.length ∧
        (editThoughtClick i response p).thoughtsData[i]? =
          some { id := t.id, text := trim s, resetPhrases := t.resetPhrases } ∧
        (∀ k, k ≠ i →
          (editThoughtClick i response p).thoughtsData[k]? = p.thoughtsData[k]?) ∧
        (editThoughtClick i response p).sessionStorage =
          p.sessionStorage.setItem STORAGE_KEY
            (stringify (editThoughtClick i response p).thoughtsData)) ∧
    (∀ t rp, p.thoughtsData[i]? = some t → t.resetPhrases[j]? = some rp →
      ((editResetClick i j response p).thoughtsData ≠ p.thoughtsData ↔
        ∃ s, response = some s ∧ trim s ≠ [] ∧ trim s ≠ rp.text) ∧
      ∀ s, response = some s → trim s ≠ [] →
        (editResetClick i j response p).thoughtsData.length = p.thoughtsData.length ∧
        (∃ rps, (editResetClick i j response p).thoughtsData[i]? =
            some { id := t.id, text := t.text, resetPhrases := rps } ∧
          rps.length = t.resetPhrases.length ∧
          rps[j]? = some { id := rp.id, text := trim s } ∧
          ∀ m, m ≠ j → rps[m]? = t.resetPhrases[m]?) ∧
        (∀ k, k ≠ i →
          (editResetClick i j response p).thoughtsData[k]? = p.thoughtsData[k]?) ∧
        (editResetClick i j response p).sessionStorage =
          p.sessionStorage.setItem STORAGE_KEY
            (stringify (editResetClick i j response p).thoughtsData)) := by
  refine ⟨fun h => ⟨editThoughtClick_rejected i response p h,
    editResetClick_rejected i j response p h⟩, ?_, ?_⟩
  · intro t hi
    constructor
    · constructor
      · intro hne
        cases response with
        | none => exact absurd (by rw [editThoughtClick_rejected i none p rfl]) hne
        | some s =>
          by_cases hs : trim s = []
          · exact absurd
              (by rw [editThoughtClick_rejected i (some s) p (by simp [accepted, hs])]) hne
          · refine ⟨s, rfl, hs, ?_⟩
            intro heq
            apply hne
            rw [editThoughtClick_thoughtsData i s p t hi hs, heq]
            exact set_eq_self_of_getElem? p.thoughtsData i t hi
      · rintro ⟨s, rfl, hs, hdiff⟩ heq
        have h1 := getElem?_set_self_of_some p.thoughtsData i t
          ⟨t.id, trim s, t.resetPhrases⟩ hi
        rw [← editThoughtClick_thoughtsData i s p t hi hs, heq, hi] at h1
        have h2 := congrArg Thought.text (Option.some.inj h1)
        exact hdiff h2.symm
    · intro s hr hs
      subst hr
      have hdata := editThoughtClick_thoughtsData i s p t hi hs
      refine ⟨by simp [hdata], ?_, ?_, ?_⟩
      · rw [hdata]
        exact getElem?_set_self_of_some p.thoughtsData i t _ hi
      · intro k hk
        rw [hdata]
        exact getElem?_set_of_ne p.thoughtsData i k _ hk
      · rw [editThoughtClick_accepted i s p t hi hs]
        rfl
  · intro t rp hi hj
    constructor
    · constructor
      · intro hne
        cases response with
        | none => exact absurd (by rw [editResetClick_rejected i j none p rfl]) hne
        | some s =>
          by_cases hs : trim s = []
          · exact absurd
              (by rw [editResetClick_rejected i j (some s) p (by simp [accepted, hs])]) hne
          · refine ⟨s, rfl, hs, ?_⟩
            intro heq
            apply hne
            rw [editResetClick_thoughtsData i j s p t rp hi hj hs, heq,
              set_eq_self_of_getElem? t.resetPhrases j rp hj]
            exact set_eq_self_of_getElem? p.thoughtsData i t hi
      · rintro ⟨s, rfl, hs, hdiff⟩ heq
        have h1 := getElem?_set_self_of_some p.thoughtsData i t
          ⟨t.id, t.text, t.resetPhrases.set j ⟨rp.id, trim s⟩⟩ hi
        rw [← editResetClick_thoughtsData i j s p t rp hi hj hs, heq, hi] at h1
        have h2 := congrArg Thought.resetPhrases (Option.some.inj h1)
        have h3 := getElem?_set_self_of_some t.resetPhrases j rp ⟨rp.id, trim s⟩ hj
        have h4 : t.resetPhrases.set j ⟨rp.id, trim s⟩ = t.resetPhrases := h2.symm
        rw [h4, hj] at h3
        have h5 := congrArg ResetPhrase.text (Option.some.inj h3)
        exact hdiff h5.symm
    · intro s hr hs
      subst hr
      have hdata := editResetClick_thoughtsData i j s p t rp hi hj hs
      refine ⟨by simp [hdata], ⟨t.resetPhrases.set j ⟨rp.id, trim s⟩, ?_,
        by simp, ?_, ?_⟩, ?_, ?_⟩
      · rw [hdata]
        exact getElem?_set_self_of_some p.thoughtsData i t _ hi
      · exact getElem?_set_self_of_some t.resetPhrases j rp _ hj
      · intro m hm
        exact getElem?_set_of_ne t.resetPhrases j m _ hm
      · intro k hk
        rw [hdata]
        exact getElem?_set_of_ne p.thoughtsData i k _ hk
      · rw [editResetClick_accepted i j s p t rp hi hj hs]
        rfl

/-- Witness for C6 (amended): a blank response and a new text on the first
Thought of a page with two Thoughts. -/
theorem edit_changes_store_iff_witness :
    accepted (some (utf16 "  ")) = false ∧
    pageTwoThoughts.thoughtsData[0]? = some ⟨utf16 "1002", utf16 "B",
      [⟨utf16 "1003", utf16 "x"⟩, ⟨utf16 "1004", utf16 "y"⟩]⟩ ∧
    editThoughtClick 0 (some (utf16 "  ")) pageTwoThoughts = pageTwoThoughts ∧
    (editThoughtClick 0 (some (utf16 " C ")) pageTwoThoughts).thoughtsData[0]? =
      some { id := utf16 "1002", text := trim (utf16 " C "),
             resetPhrases := [⟨utf16 "1003", utf16 "x"⟩, ⟨utf16 "1004", utf16 "y"⟩] } ∧
    (editThoughtClick 0 (some (utf16 " C ")) pageTwoThoughts).thoughtsData ≠
      pageTwoThoughts.thoughtsData :=
  ⟨by decide, by decide,
    ((edit_changes_store_iff 0 1 (some (utf16 "  ")) pageTwoThoughts).1 (by decide)).1,
    (((edit_changes_store_iff 0 1 (some (utf16 " C ")) pageTwoThoughts).2.1
      ⟨utf16 "1002", utf16 "B", [⟨utf16 "1003", utf16 "x"⟩, ⟨utf16 "1004", utf16 "y"⟩]⟩
      (by decide)).2 (utf16 " C ") rfl (by decide)).2.1,
    (((edit_changes_store_iff 0 1 (some (utf16 " C ")) pageTwoThoughts).2.1
      ⟨utf16 "1002", utf16 "B", [⟨utf16 "1003", utf16 "x"⟩, ⟨utf16 "1004", utf16 "y"⟩]⟩
      (by decide)).1).2 ⟨utf16 " C ", rfl, by decide, by decide⟩⟩

/-! ## Export -/

theorem unlines_append (a b : List JSString) : unlines (a ++ b) = unlines a ++ unlines b := by
  simp [unlines]

theorem unlines_cons (l : JSString) (ls : List JSString) :
    unlines (l :: ls) = l ++ 10 :: unlines ls := by
  simp [unlines]

theorem utf16_line_feed : utf16 "\n" = [10] := by decide

theorem resetPhrases_foldl (rps : List ResetPhrase) (txt : JSString) (n : Nat) :
    rps.foldl
      (fun (a : JSString × Nat) rp =>
        (a.1 ++ utf16 "  Reset Phrase " ++ natToString (a.2 + 1) ++ utf16 ": " ++
          rp.text ++ utf16 "\n", a.2 + 1))
      (txt, n) =
    (txt ++ unlines ((rps.enumFrom n).map fun jr => resetPhraseLine jr.1 jr.2),
      n + rps.length) := by
  induction rps generalizing txt n with
  | nil => simp [unlines]
  | cons rp rest ih =>
    rw [List.foldl_cons, ih]
    simp [List.enumFrom_cons, unlines_cons, resetPhraseLine, utf16_line_feed,
      List.append_assoc, Nat.add_comm, Nat.add_left_comm]

theorem thoughts_foldl (data : List Thought) (txt : JSString) (n : Nat) :
    data.foldl
      (fun (acc : JSString × Nat) thought =>
        let txt1 := acc.1 ++ utf16 "Thought " ++ natToString (acc.2 + 1) ++ utf16 ": " ++
          thought.text ++ utf16 "\n"
        let txt2 :=
          if thought.resetPhrases.length > 0 then
            (thought.resetPhrases.foldl
              (fun (a : JSString × Nat) rp =>
                (a.1 ++ utf16 "  Reset Phrase " ++ natToString (a.2 + 1) ++ utf16 ": " ++
                  rp.text ++ utf16 "\n", a.2 + 1))
              (txt1, 0)).1
          else txt1
        (txt2 ++ utf16 "\n", acc.2 + 1))
      (txt, n) =
    (txt ++ unlines ((data.enumFrom n).flatMap fun it => thoughtBlock it.1 it.2),
      n + data.length) := by
  induction data generalizing txt n with
  | nil => simp [unlines]
  | cons t rest ih =>
    rw [List.foldl_cons, ih]
    have hblock : unlines (thoughtBlock n t) =
        utf16 "Thought " ++ natToString (n + 1) ++ utf16 ": " ++ t.text ++ [10] ++
          unlines ((t.resetPhrases.enumFrom 0).map fun jr => resetPhraseLine jr.1 jr.2) ++
          [10] := by
      simp [thoughtBlock, unlines_cons, unlines_append, List.enum, unlines]
    by_cases hlen : t.resetPhrases.length > 0
    · simp only [hlen, if_true, resetPhrases_foldl]
      simp only [List.enumFrom_cons, List.flatMap_cons, unlines_append, hblock,
        utf16_line_feed, List.length_cons]
      simp [List.append_assoc, Nat.add_comm, Nat.add_left_comm]
    · have hnil : t.resetPhrases = [] := by
        cases hrp : t.resetPhrases with
        | nil => rfl
        | cons a as => simp [hrp] at hlen
      simp only [hlen, if_false, List.enumFrom_cons, List.flatMap_cons, unlines_append, hblock,
        utf16_line_feed, List.length_cons, hnil]
      simp [List.append_assoc, Nat.add_comm, Nat.add_left_comm, unlines]

/-- C5: the text `exportDataAsTxt` builds is, line by line, the header line, a
blank line, and for each Thought in store order its line `Thought <index + 1>:
<text>`, one line `  Reset Phrase <index + 1>: <text>` per reset phrase in
stored order, and a blank line (which separates it from the next Thought).
After adding the Thought "Quit smoking" and the reset phrase "I am stronger
than this urge" to an empty Store, the line `Thought 1: Quit smoking` is
directly followed by the line `  Reset Phrase 1: I am stronger than this
urge`. -/
theorem exportDataAsTxt_format (p : Page) :
    exportDataAsTxt p = unlines (exportLines p.thoughtsData) ∧
    (∀ (p0 : Page) (now1 now2 : Int), p0.thoughtsData = [] →
      exportLines (run p0 (quitSmokingActions now1 now2)).thoughtsData =
        [utf16 "ClearMindLoop Export", utf16 "", utf16 "Thought 1: Quit smoking",
          utf16 "  Reset Phrase 1: I am stronger than this urge", utf16 ""] ∧
      exportDataAsTxt (run p0 (quitSmokingActions now1 now2)) =
        utf16 ("ClearMindLoop Export\n\nThought 1: Quit smoking\n" ++
          "  Reset Phrase 1: I am stronger than this urge\n\n")) := by
  have hgen : ∀ q : Page, exportDataAsTxt q = unlines (exportLines q.thoughtsData) := by
    intro q
    have hhead : utf16 "ClearMindLoop Export\n\n" =
        utf16 "ClearMindLoop Export" ++ [10] ++ [10] := by decide
    simp only [exportDataAsTxt, thoughts_foldl, exportLines, unlines_cons, List.enum, hhead]
    simp [List.append_assoc]
  refine ⟨hgen p, ?_⟩
  intro p0 now1 now2 h0
  have h1 : trim (utf16 "Quit smoking") = utf16 "Quit smoking" := by decide
  have h2 : trim (utf16 "I am stronger than this urge") =
      utf16 "I am stronger than this urge" := by decide
  have h3 : utf16 "Quit smoking" ≠ [] := by decide
  have h4 : utf16 "I am stronger than this urge" ≠ [] := by decide
  have hdata : (run p0 (quitSmokingActions now1 now2)).thoughtsData =
      [⟨numberToString now1, utf16 "Quit smoking",
        [⟨numberToString now2, utf16 "I am stronger than this urge"⟩]⟩] := by
    simp [run, step, quitSmokingActions, handleNewThought, handleNewResetPhrase, h1, h2, h3,
      h4, showResetSection, saveData, h0, pushResetPhrase, renderThoughts]
  have hlines : exportLines (run p0 (quitSmokingActions now1 now2)).thoughtsData =
      [utf16 "ClearMindLoop Export", utf16 "", utf16 "Thought 1: Quit smoking",
        utf16 "  Reset Phrase 1: I am stronger than this urge", utf16 ""] := by
    rw [hdata]
    simp only [exportLines, thoughtBlock, resetPhraseLine, List.enum, List.enumFrom,
      List.flatMap_cons, List.flatMap_nil, List.map_cons, List.map_nil]
    decide
  refine ⟨hlines, ?_⟩
  rw [hgen, hlines]
  decide

/-- Witness for C5: the scenario run on the empty page. -/
theorem exportDataAsTxt_format_witness :
    emptyPage.thoughtsData = [] ∧
    exportDataAsTxt (run emptyPage (quitSmokingActions 1000 1001)) =
      utf16 ("ClearMindLoop Export\n\nThought 1: Quit smoking\n" ++
        "  Reset Phrase 1: I am stronger than this urge\n\n") :=
  ⟨rfl, ((exportDataAsTxt_format emptyPage).2 emptyPage 1000 1001 rfl).2⟩

/-! ## Texts are never blank -/

theorem dropWhile_trim (s : JSString) : (trim s).dropWhile isWhiteSpace = trim s := by
  unfold trim
  cases ht : (s.dropWhile isWhiteSpace).rdropWhile isWhiteSpace with
  | nil => rfl
  | cons a t =>
    have hpre : (a :: t) <+: s.dropWhile isWhiteSpace := by
      rw [← ht]
      exact List.rdropWhile_prefix isWhiteSpace _
    obtain ⟨u, hu⟩ := hpre
    have hne : s.dropWhile isWhiteSpace ≠ [] := by
      rw [← hu]
      simp
    have hhead := List.head_dropWhile_not isWhiteSpace s hne
    have ha : (s.dropWhile isWhiteSpace).head hne = a := by
      simp [← hu]
    rw [ha] at hhead
    simp [List.dropWhile_cons, hhead]

theorem trim_trim (s : JSString) : trim (trim s) = trim s := by
  have h := dropWhile_trim s
  show ((trim s).dropWhile isWhiteSpace).rdropWhile isWhiteSpace = trim s
  rw [h]
  unfold trim
  exact List.rdropWhile_idempotent isWhiteSpace _

theorem textsNonEmpty_nil : textsNonEmpty [] := by
  intro t ht
  simp at ht

theorem textsNonEmpty_cons (t : Thought) (data : List Thought)
    (ht : trim t.text ≠ []) (hrps : ∀ rp ∈ t.resetPhrases, trim rp.text ≠ [])
    (h : textsNonEmpty data) : textsNonEmpty (t :: data) := by
  intro u hu
  rcases List.mem_cons.mp hu with rfl | hu
  · exact ⟨ht, hrps⟩
  · exact h u hu

theorem textsNonEmpty_pushResetPhrase (thoughtId : JSString) (rp : ResetPhrase)
    (data : List Thought) (hrp : trim rp.text ≠ []) (h : textsNonEmpty data) :
    textsNonEmpty (pushResetPhrase thoughtId rp data) := by
  induction data with
  | nil => simpa [pushResetPhrase] using h
  | cons t ts ih =>
    have ht := h t (List.mem_cons_self t ts)
    have hts : textsNonEmpty ts := fun u hu => h u (List.mem_cons_of_mem t hu)
    by_cases hid : t.id = thoughtId
    · simp only [pushResetPhrase, hid, if_true]
      refine textsNonEmpty_cons _ ts ht.1 ?_ hts
      intro r hr
      rcases List.mem_append.mp hr with hr | hr
      · exact ht.2 r hr
      · have : r = rp := by simpa using hr
        rw [this]
        exact hrp
    · simp only [pushResetPhrase, hid, if_false]
      exact textsNonEmpty_cons t _ ht.1 ht.2 (ih hts)

theorem textsNonEmpty_set (data : List Thought) (i : Nat) (t : Thought)
    (ht : trim t.text ≠ []) (hrps : ∀ rp ∈ t.resetPhrases, trim rp.text ≠ [])
    (h : textsNonEmpty data) : textsNonEmpty (data.set i t) := by
  intro u hu
  rcases List.mem_or_eq_of_mem_set hu with hu | rfl
  · exact h u hu
  · exact ⟨ht, hrps⟩

theorem textsNonEmpty_step (p : Page) (a : Action) (h : textsNonEmpty p.thoughtsData) :
    textsNonEmpty (step p a).thoughtsData := by
  cases a with
  | typeThought value => exact h
  | typeResetPhrase value => exact h
  | submitThought now =>
    by_cases hb : trim p.newThoughtInput = []
    · simpa [step, handleNewThought, hb] using h
    · simp only [step, handleNewThought_thoughtsData now p hb]
      refine textsNonEmpty_cons _ _ ?_ ?_ h
      · simpa [trim_trim] using hb
      · intro rp hrp
        simp at hrp
  | addResetPhrase now =>
    by_cases hb : trim p.newResetPhraseInput = []
    · simpa [step, handleNewResetPhrase, hb] using h
    · cases hid : p.thoughtId with
      | none => simpa [step, handleNewResetPhrase, hb, hid] using h
      | some thoughtId =>
        cases hf : p.thoughtsData.find? (fun t => t.id == thoughtId) with
        | none => simpa [step, handleNewResetPhrase, hb, hid, hf] using h
        | some u =>
          have hq : (step p (Action.addResetPhrase now)).thoughtsData =
              pushResetPhrase thoughtId
                { id := numberToString now, text := trim p.newResetPhraseInput }
                p.thoughtsData := by
            simp [step, handleNewResetPhrase, hb, hid, hf, saveData]
          rw [hq]
          exact textsNonEmpty_pushResetPhrase _ _ _ (by simpa [trim_trim] using hb) h
  | openResetSection i =>
    cases hi : p.thoughtsData[i]? with
    | none => simpa [step, addResetClick, hi] using h
    | some t => simpa [step, addResetClick, hi, showResetSection] using h
  | editThought i response =>
    by_cases hacc : accepted response = true
    · cases response with
      | none => simp [accepted] at hacc
      | some s =>
        have hs : trim s ≠ [] := by simpa [accepted] using hacc
        cases hi : p.thoughtsData[i]? with
        | none => simpa [step, editThoughtClick, hi] using h
        | some t =>
          have ht := h t (List.getElem?_mem hi)
          simp only [step, editThoughtClick_accepted i s p t hi hs, renderThoughts_thoughtsData,
            saveData]
          exact textsNonEmpty_set _ _ _ (by simpa [trim_trim] using hs) ht.2 h
    · simp only [step, editThoughtClick_rejected i response p (by simpa using hacc)]
      exact h
  | editResetPhrase i j response =>
    by_cases hacc : accepted response = true
    · cases response with
      | none => simp [accepted] at hacc
      | some s =>
        have hs : trim s ≠ [] := by simpa [accepted] using hacc
        cases hi : p.thoughtsData[i]? with
        | none => simpa [step, editResetClick, hi] using h
        | some t =>
          cases hj : t.resetPhrases[j]? with
          | none => simpa [step, editResetClick, hi, hj] using h
          | some rp =>
            have ht := h t (List.getElem?_mem hi)
            simp only [step, editResetClick_accepted i j s p t rp hi hj hs,
              renderThoughts_thoughtsData, saveData]
            refine textsNonEmpty_set _ _ _ ht.1 ?_ h
            intro r hr
            rcases List.mem_or_eq_of_mem_set hr with hr | rfl
            · exact ht.2 r hr
            · simpa [trim_trim] using hs
    · simp only [step, editResetClick_rejected i j response p (by simpa using hacc)]
      exact h

theorem textsNonEmpty_run (actions : List Action) (p : Page)
    (h : textsNonEmpty p.thoughtsData) : textsNonEmpty (run p actions).thoughtsData := by
  induction actions generalizing p with
  | nil => exact h
  | cons a rest ih => exact ih (step p a) (textsNonEmpty_step p a h)

/-- C8: in every Store reached from an empty one by any sequence of actions
(typing, adding Thoughts and reset phrases, retargeting the reset section,
editing Thoughts and reset phrases, with arbitrary inputs and responses), no
Thought and no reset phrase has a text that is empty after trimming. -/
theorem reachable_texts_nonEmpty (p0 : Page) (actions : List Action)
    (h0 : p0.thoughtsData = []) :
    ∀ t ∈ (run p0 actions).thoughtsData,
      trim t.text ≠ [] ∧ ∀ rp ∈ t.resetPhrases, trim rp.text ≠ [] :=
  textsNonEmpty_run actions p0 (by rw [h0]; exact textsNonEmpty_nil)

/-- Witness for C8: a run from the empty page that mixes blank and real
inputs leaves one Thought with one reset phrase, both non-blank. -/
theorem reachable_texts_nonEmpty_witness :
    emptyPage.thoughtsData = [] ∧
    (run emptyPage mixedActions).thoughtsData =
      [⟨utf16 "1000", utf16 "B", [⟨utf16 "1000", utf16 "y"⟩]⟩] ∧
    ∀ t ∈ (run emptyPage mixedActions).thoughtsData,
      trim t.text ≠ [] ∧ ∀ rp ∈ t.resetPhrases, trim rp.text ≠ [] :=
  ⟨rfl, by decide, reachable_texts_nonEmpty emptyPage mixedActions rfl⟩

/-! ## Ids -/

theorem toDigits_value (fuel n : Nat) (h : n < fuel) :
    (toDigits fuel n).foldl (fun a c => 10 * a + (c - 48)) 0 = n := by
  induction fuel generalizing n with
  | zero => omega
  | succ fuel ih =>
    by_cases h10 : n < 10
    · simp [toDigits, h10]
    · simp only [toDigits, h10, if_false, List.foldl_append, List.foldl_cons, List.foldl_nil]
      rw [ih (n / 10) (by omega)]
      omega

theorem toDigits_range (fuel n c : Nat) (hc : c ∈ toDigits fuel n) : 48 ≤ c ∧ c ≤ 57 := by
  induction fuel generalizing n with
  | zero => simp [toDigits] at hc
  | succ fuel ih =>
    by_cases h10 : n < 10
    · simp [toDigits, h10] at hc
      omega
    · simp only [toDigits, h10, if_false, List.mem_append, List.mem_singleton] at hc
      rcases hc with hc | hc
      · exact ih (n / 10) hc
      · omega

theorem natToString_injective (m n : Nat) (h : natToString m = natToString n) : m = n := by
  have hm := toDigits_value (m + 1) m (by omega)
  have hn := toDigits_value (n + 1) n (by omega)
  unfold natToString at h
  rw [h] at hm
  omega

theorem numberToString_injective (i j : Int) (h : numberToString i = numberToString j) :
    i = j := by
  unfold numberToString at h
  by_cases hi : i < 0 <;> by_cases hj : j < 0
  · simp only [hi, hj, if_true, List.cons.injEq, true_and] at h
    have := natToString_injective _ _ h
    omega
  · simp only [hi, hj, if_true, if_false] at h
    have hmem : 45 ∈ natToString j.natAbs := by
      rw [← h]
      simp
    have := toDigits_range _ _ 45 hmem
    omega
  · simp only [hi, hj, if_true, if_false] at h
    have hmem : 45 ∈ natToString i.natAbs := by
      rw [h]
      simp
    have := toDigits_range _ _ 45 hmem
    omega
  · simp only [hi, hj, if_false] at h
    have := natToString_injective _ _ h
    omega

theorem map_set_of_eq {α β : Type} (f : α → β) (l : List α) (i : Nat) (a b : α)
    (h : l[i]? = some a) (hf : f b = f a) : (l.set i b).map f = l.map f := by
  induction l generalizing i with
  | nil => simp
  | cons x xs ih =>
    cases i with
    | zero =>
      simp at h
      subst h
      simp [hf]
    | succ i =>
      simp at h
      simp [ih i h]

theorem map_id_pushResetPhrase (thoughtId : JSString) (rp : ResetPhrase)
    (data : List Thought) :
    (pushResetPhrase thoughtId rp data).map Thought.id = data.map Thought.id := by
  induction data with
  | nil => rfl
  | cons t ts ih =>
    by_cases hid : t.id = thoughtId <;> simp [pushResetPhrase, hid, ih]

theorem mem_pushResetPhrase (thoughtId : JSString) (rp : ResetPhrase) (data : List Thought)
    (u : Thought) (hu : u ∈ pushResetPhrase thoughtId rp data) :
    u ∈ data ∨ ∃ t ∈ data, u = { t with resetPhrases := t.resetPhrases ++ [rp] } := by
  induction data with
  | nil => simp [pushResetPhrase] at hu
  | cons t ts ih =>
    by_cases hid : t.id = thoughtId
    · simp only [pushResetPhrase, if_pos hid, List.mem_cons] at hu
      rcases hu with rfl | hu
      · exact Or.inr ⟨t, List.mem_cons_self t ts, rfl⟩
      · exact Or.inl (List.mem_cons_of_mem t hu)
    · simp only [pushResetPhrase, if_neg hid, List.mem_cons] at hu
      rcases hu with rfl | hu
      · exact Or.inl (List.mem_cons_self _ ts)
      · rcases ih hu with h | ⟨v, hv, rfl⟩
        · exact Or.inl (List.mem_cons_of_mem t h)
        · exact Or.inr ⟨v, List.mem_cons_of_mem t hv, rfl⟩

theorem idsIssued_mono (used used' : List Int) (data : List Thought)
    (hsub : ∀ r ∈ used, r ∈ used') (h : idsIssued used data) : idsIssued used' data := by
  intro t ht
  obtain ⟨⟨r, hr, hid⟩, hrps⟩ := h t ht
  refine ⟨⟨r, hsub r hr, hid⟩, ?_⟩
  intro rp hrp
  obtain ⟨r', hr', hid'⟩ := hrps rp hrp
  exact ⟨r', hsub r' hr', hid'⟩

/-- One action keeps the ids distinct when its clock reading (if it has one)
was not used before. -/
theorem ids_step (p : Page) (a : Action) (used : List Int)
    (hiss : idsIssued used p.thoughtsData) (hdist : idsDistinct p.thoughtsData)
    (hfresh : ∀ r ∈ clockReadings [a], r ∉ used) :
    idsIssued (clockReadings [a] ++ used) (step p a).thoughtsData ∧
      idsDistinct (step p a).thoughtsData := by
  have hmono : idsIssued (clockReadings [a] ++ used) p.thoughtsData :=
    idsIssued_mono used _ _ (fun r hr => List.mem_append_right _ hr) hiss
  cases a with
  | typeThought value => exact ⟨hmono, hdist⟩
  | typeResetPhrase value => exact ⟨hmono, hdist⟩
  | openResetSection i =>
    cases hi : p.thoughtsData[i]? with
    | none => simpa [step, addResetClick, hi] using And.intro hmono hdist
    | some t => simpa [step, addResetClick, hi, showResetSection] using And.intro hmono hdist
  | submitThought now =>
    have hnow : now ∉ used := hfresh now (by simp [clockReadings])
    by_cases hb : trim p.newThoughtInput = []
    · simpa [step, handleNewThought, hb] using And.intro hmono hdist
    · simp only [step, handleNewThought_thoughtsData now p hb]
      constructor
      · intro t ht
        rcases List.mem_cons.mp ht with rfl | ht
        · exact ⟨⟨now, by simp [clockReadings], rfl⟩, fun rp hrp => by simp at hrp⟩
        · exact hmono t ht
      · refine ⟨?_, ?_⟩
        · simp only [List.map_cons, List.nodup_cons]
          refine ⟨?_, hdist.1⟩
          intro hmem
          obtain ⟨t, ht, hid⟩ := List.mem_map.mp hmem
          obtain ⟨⟨r, hr, hidr⟩, _⟩ := hiss t ht
          have : r = now := numberToString_injective r now (by rw [← hidr, hid])
          exact hnow (this ▸ hr)
        · intro t ht
          rcases List.mem_cons.mp ht with rfl | ht
          · simp
          · exact hdist.2 t ht
  | addResetPhrase now =>
    have hnow : now ∉ used := hfresh now (by simp [clockReadings])
    by_cases hb : trim p.newResetPhraseInput = []
    · simpa [step, handleNewResetPhrase, hb] using And.intro hmono hdist
    · cases hid : p.thoughtId with
      | none => simpa [step, handleNewResetPhrase, hb, hid] using And.intro hmono hdist
      | some thoughtId =>
        cases hf : p.thoughtsData.find? (fun t => t.id == thoughtId) with
        | none => simpa [step, handleNewResetPhrase, hb, hid, hf] using And.intro hmono hdist
        | some u =>
          have hq : (step p (Action.addResetPhrase now)).thoughtsData =
              pushResetPhrase thoughtId
                { id := numberToString now, text := trim p.newResetPhraseInput }
                p.thoughtsData := by
            simp [step, handleNewResetPhrase, hb, hid, hf, saveData]
          rw [hq]
          constructor
          · intro t ht
            rcases mem_pushResetPhrase _ _ _ t ht with ht | ⟨v, hv, rfl⟩
            · exact hmono t ht
            · refine ⟨(hmono v hv).1, ?_⟩
              intro rp hrp
              rcases List.mem_append.mp hrp with hrp | hrp
              · exact (hmono v hv).2 rp hrp
              · have : rp = ⟨numberToString now, trim p.newResetPhraseInput⟩ := by
                  simpa using hrp
                exact ⟨now, by simp [clockReadings], by rw [this]⟩
          · refine ⟨by rw [map_id_pushResetPhrase]; exact hdist.1, ?_⟩
            intro t ht
            rcases mem_pushResetPhrase _ _ _ t ht with ht | ⟨v, hv, rfl⟩
            · exact hdist.2 t ht
            · simp only [List.map_append, List.map_cons, List.map_nil]
              rw [List.nodup_append]
              refine ⟨hdist.2 v hv, by simp, ?_⟩
              intro x hx hx'
              have hxeq : x = numberToString now := by simpa using hx'
              obtain ⟨rp, hrp, hrpid⟩ := List.mem_map.mp hx
              obtain ⟨r, hr, hidr⟩ := (hiss v hv).2 rp hrp
              have : r = now := numberToString_injective r now (by rw [← hidr, hrpid, hxeq])
              exact hnow (this ▸ hr)
  | editThought i response =>
    by_cases hacc : accepted response = true
    · cases response with
      | none => simp [accepted] at hacc
      | some s =>
        have hs : trim s ≠ [] := by simpa [accepted] using hacc
        cases hi : p.thoughtsData[i]? with
        | none => simpa [step, editThoughtClick, hi] using And.intro hmono hdist
        | some t =>
          have ht := List.getElem?_mem hi
          simp only [step, editThoughtClick_accepted i s p t hi hs, renderThoughts_thoughtsData,
            saveData]
          constructor
          · intro u hu
            rcases List.mem_or_eq_of_mem_set hu with hu | rfl
            · exact hmono u hu
            · exact hmono t ht
          · refine ⟨?_, ?_⟩
            · rw [map_set_of_eq Thought.id p.thoughtsData i t
                ⟨t.id, trim s, t.resetPhrases⟩ hi rfl]
              exact hdist.1
            · intro u hu
              rcases List.mem_or_eq_of_mem_set hu with hu | rfl
              · exact hdist.2 u hu
              · exact hdist.2 t ht
    · simp only [step, editThoughtClick_rejected i response p (by simpa using hacc)]
      exact ⟨hmono, hdist⟩
  | editResetPhrase i j response =>
    by_cases hacc : accepted response = true
    · cases response with
      | none => simp [accepted] at hacc
      | some s =>
        have hs : trim s ≠ [] := by simpa [accepted] using hacc
        cases hi : p.thoughtsData[i]? with
        | none => simpa [step, editResetClick, hi] using And.intro hmono hdist
        | some t =>
          cases hj : t.resetPhrases[j]? with
          | none => simpa [step, editResetClick, hi, hj] using And.intro hmono hdist
          | some rp =>
            have ht := List.getElem?_mem hi
            have hrp := List.getElem?_mem hj
            simp only [step, editResetClick_accepted i j s p t rp hi hj hs,
              renderThoughts_thoughtsData, saveData]
            constructor
            · intro u hu
              rcases List.mem_or_eq_of_mem_set hu with hu | rfl
              · exact hmono u hu
              · refine ⟨(hmono t ht).1, ?_⟩
                intro r hr
                rcases List.mem_or_eq_of_mem_set hr with hr | rfl
                · exact (hmono t ht).2 r hr
                · exact (hmono t ht).2 rp hrp
            · refine ⟨?_, ?_⟩
              · rw [map_set_of_eq Thought.id p.thoughtsData i t
                  ⟨t.id, t.text, t.resetPhrases.set j ⟨rp.id, trim s⟩⟩ hi rfl]
                exact hdist.1
              · intro u hu
                rcases List.mem_or_eq_of_mem_set hu with hu | rfl
                · exact hdist.2 u hu
                · show ((t.resetPhrases.set j ⟨rp.id, trim s⟩).map ResetPhrase.id).Nodup
                  rw [map_set_of_eq ResetPhrase.id t.resetPhrases j rp ⟨rp.id, trim s⟩ hj rfl]
                  exact hdist.2 t ht
    · simp only [step, editResetClick_rejected i j response p (by simpa using hacc)]
      exact ⟨hmono, hdist⟩

theorem clockReadings_cons (a : Action) (rest : List Action) :
    clockReadings (a :: rest) = clockReadings [a] ++ clockReadings rest := by
  cases a <;> simp [clockReadings]

theorem ids_run (actions : List Action) (p : Page) (used : List Int)
    (hiss : idsIssued used p.thoughtsData) (hdist : idsDistinct p.thoughtsData)
    (hnodup : (clockReadings actions).Nodup)
    (hfresh : ∀ r ∈ clockReadings actions, r ∉ used) :
    idsDistinct (run p actions).thoughtsData := by
  induction actions generalizing p used with
  | nil => exact hdist
  | cons a rest ih =>
    rw [clockReadings_cons] at hnodup hfresh
    have hstep := ids_step p a used hiss hdist
      (fun r hr => hfresh r (List.mem_append_left _ hr))
    rw [List.nodup_append] at hnodup
    refine ih (step p a) (clockReadings [a] ++ used) hstep.1 hstep.2 hnodup.2.1 ?_
    intro r hr hmem
    rcases List.mem_append.mp hmem with hmem | hmem
    · exact hnodup.2.2 hmem hr
    · exact hfresh r (List.mem_append_right _ hr) hmem

/-- Counterexample to C9 as stated: two Thoughts added at the same clock
reading get the same id. -/
theorem same_reading_duplicates_id :
    clockReadings sameClockActions = [1000, 1000] ∧
    (run emptyPage sameClockActions).thoughtsData.map Thought.id =
      [utf16 "1000", utf16 "1000"] ∧
    ¬ idsDistinct (run emptyPage sameClockActions).thoughtsData := by
  refine ⟨by decide, by decide, ?_⟩
  unfold idsDistinct
  decide

/-- C9 (amended): in every Store reached from an empty one by a sequence of
actions whose clock readings are pairwise distinct, Thought ids are pairwise
distinct and reset phrase ids are pairwise distinct within each Thought. -/
theorem reachable_ids_distinct (p0 : Page) (actions : List Action)
    (h0 : p0.thoughtsData = []) (hclock : (clockReadings actions).Nodup) :
    ((run p0 actions).thoughtsData.map Thought.id).Nodup ∧
    ∀ t ∈ (run p0 actions).thoughtsData, (t.resetPhrases.map ResetPhrase.id).Nodup :=
  ids_run actions p0 []
    (by rw [h0]; intro t ht; simp at ht)
    (by rw [h0]; exact ⟨by simp, fun t ht => by simp at ht⟩)
    hclock (fun r _ hr => by simp at hr)

/-- Witness for C9 (amended): four additions at four different readings. -/
theorem reachable_ids_distinct_witness :
    emptyPage.thoughtsData = [] ∧
    clockReadings distinctClockActions = [1000, 1001, 1002, 1003] ∧
    ((run emptyPage distinctClockActions).thoughtsData.map Thought.id).Nodup ∧
    ∀ t ∈ (run emptyPage distinctClockActions).thoughtsData,
      (t.resetPhrases.map ResetPhrase.id).Nodup :=
  ⟨rfl, by decide, reachable_ids_distinct emptyPage distinctClockActions rfl (by decide)⟩

/-! ## JSON round trip: strings -/

theorem hexVal_hexDigit (d : Nat) (h : d < 16) : hexVal (hexDigit d) = some d := by
  unfold hexDigit hexVal
  by_cases h10 : d < 10
  · have h1 : 48 ≤ 48 + d ∧ 48 + d ≤ 57 := by omega
    simp [h10, h1]
  · have h1 : ¬ (48 ≤ 87 + d ∧ 87 + d ≤ 57) := by omega
    have h2 : 97 ≤ 87 + d ∧ 87 + d ≤ 102 := by omega
    simp [h10, h1, h2]

theorem parseStringBody_quote (rest : JSString) :
    parseStringBody (34 :: rest) = some ([], rest) := by
  rw [parseStringBody.eq_def]
  simp

theorem parseStringBody_plain (c : Nat) (tail : JSString) (h34 : c ≠ 34) (h92 : c ≠ 92)
    (h32 : ¬ c < 32) :
    parseStringBody (c :: tail) = (parseStringBody tail).map fun r => (c :: r.1, r.2) := by
  rw [parseStringBody.eq_def]
  simp [h34, h92, h32]

theorem parseStringBody_escape (e u : Nat) (tail : JSString) (h117 : e ≠ 117)
    (hu : unescape e = some u) :
    parseStringBody (92 :: e :: tail) = (parseStringBody tail).map fun r => (u :: r.1, r.2) := by
  rw [parseStringBody.eq_def]
  simp [h117, hu]

theorem parseStringBody_unicodeEscape (c : Nat) (tail : JSString) (h : c < 65536) :
    parseStringBody (unicodeEscape c ++ tail) =
      (parseStringBody tail).map fun r => (c :: r.1, r.2) := by
  have e : 4096 * (c / 4096 % 16) + 256 * (c / 256 % 16) + 16 * (c / 16 % 16) + c % 16 = c := by
    omega
  simp only [unicodeEscape, List.cons_append, List.nil_append]
  rw [parseStringBody.eq_def]
  simp [hexVal_hexDigit, Nat.mod_lt, e]

theorem parseStringBody_quoteUnit (c : Nat) (tail : JSString) :
    parseStringBody (quoteUnit c ++ tail) =
      (parseStringBody tail).map fun r => (c :: r.1, r.2) := by
  unfold quoteUnit
  by_cases h8 : c = 8
  · subst h8
    exact parseStringBody_escape 98 8 tail (by decide) (by decide)
  by_cases h9 : c = 9
  · subst h9
    exact parseStringBody_escape 116 9 tail (by decide) (by decide)
  by_cases h10 : c = 10
  · subst h10
    exact parseStringBody_escape 110 10 tail (by decide) (by decide)
  by_cases h12 : c = 12
  · subst h12
    exact parseStringBody_escape 102 12 tail (by decide) (by decide)
  by_cases h13 : c = 13
  · subst h13
    exact parseStringBody_escape 114 13 tail (by decide) (by decide)
  by_cases h34 : c = 34
  · subst h34
    exact parseStringBody_escape 34 34 tail (by decide) (by decide)
  by_cases h92 : c = 92
  · subst h92
    exact parseStringBody_escape 92 92 tail (by decide) (by decide)
  by_cases hesc : c < 32 ∨ (55296 ≤ c ∧ c ≤ 57343)
  · simp only [h8, h9, h10, h12, h13, h34, h92, hesc, if_true, if_false]
    exact parseStringBody_unicodeEscape c tail (by omega)
  · simp only [h8, h9, h10, h12, h13, h34, h92, hesc, if_false, List.cons_append,
      List.nil_append]
    exact parseStringBody_plain c tail h34 h92 (by omega)

theorem quoteBody_pair (c d : Nat) (rest : JSString) :
    quoteBody (c :: d :: rest) =
      if (55296 ≤ c ∧ c ≤ 56319) ∧ (56320 ≤ d ∧ d ≤ 57343) then c :: d :: quoteBody rest
      else quoteUnit c ++ quoteBody (d :: rest) := by
  rw [quoteBody]

theorem parseStringBody_quoteBody (s rest : JSString) :
    parseStringBody (quoteBody s ++ 34 :: rest) = some (s, rest) := by
  induction s using quoteBody.induct with
  | case1 => exact parseStringBody_quote rest
  | case2 c =>
    have hq : quoteBody [c] = quoteUnit c := by rw [quoteBody]
    rw [hq, parseStringBody_quoteUnit, parseStringBody_quote]
    rfl
  | case3 c d tl hpair ih =>
    rw [quoteBody_pair, if_pos hpair]
    simp only [List.cons_append]
    rw [parseStringBody_plain c _ (by omega) (by omega) (by omega),
      parseStringBody_plain d _ (by omega) (by omega) (by omega), ih]
    rfl
  | case4 c d tl hpair ih =>
    rw [quoteBody_pair, if_neg hpair, List.append_assoc, parseStringBody_quoteUnit, ih]
    rfl

theorem parseStringBody_quoteJSONString (s rest : JSString) :
    ∃ body, quoteJSONString s ++ rest = 34 :: body ∧ parseStringBody body = some (s, rest) :=
  ⟨quoteBody s ++ 34 :: rest, by simp [quoteJSONString], parseStringBody_quoteBody s rest⟩

/-! ## JSON round trip: values -/

theorem skipWs_cons (c : Nat) (rest : JSString) (h : isJSONSpace c = false) :
    skipWs (c :: rest) = c :: rest := by
  simp [skipWs, List.dropWhile_cons, h]

theorem parsesTo_string (s : JSString) : ParsesTo 1 (quoteJSONString s) (JVal.str s) := by
  intro n tail hn
  obtain ⟨k, rfl⟩ : ∃ k, n = k + 1 := ⟨n - 1, by omega⟩
  have h : quoteJSONString s ++ tail = 34 :: (quoteBody s ++ 34 :: tail) := by
    simp [quoteJSONString]
  rw [h, parseValue, skipWs_cons 34 _ (by decide)]
  simp [parseStringBody_quoteBody]

theorem parseValue_object (n : Nat) (t : JSString) :
    parseValue (n + 1) (123 :: 34 :: t) =
      (parseMembers n [] (34 :: t)).map fun r => (JVal.obj r.1, r.2) := by
  rw [parseValue, skipWs_cons 123 _ (by decide)]
  simp [skipWs_cons 34 t (by decide)]

theorem parseValue_array_empty (n : Nat) (t : JSString) :
    parseValue (n + 1) (91 :: 93 :: t) = some (JVal.arr [], t) := by
  rw [parseValue, skipWs_cons 91 _ (by decide)]
  simp [skipWs_cons 93 t (by decide)]

theorem parseValue_array (n : Nat) (t : JSString) :
    parseValue (n + 1) (91 :: 123 :: t) =
      (parseElements n (123 :: t)).map fun r => (JVal.arr r.1, r.2) := by
  rw [parseValue, skipWs_cons 91 _ (by decide)]
  simp [skipWs_cons 123 t (by decide)]

theorem parseMembers_comma (n cost : Nat) (acc : List (JSString × JVal)) (key : String)
    (valueText : JSString) (val : JVal) (rest : JSString)
    (hval : ParsesTo cost valueText val) (hn : cost ≤ n) :
    parseMembers (n + 1) acc (stringifyMember key valueText ++ 44 :: rest) =
      parseMembers n (defineMember acc (utf16 key) val) rest := by
  have h : stringifyMember key valueText ++ 44 :: rest =
      34 :: (quoteBody (utf16 key) ++ 34 :: 58 :: (valueText ++ 44 :: rest)) := by
    simp [stringifyMember, quoteJSONString]
  rw [h, parseMembers, skipWs_cons 34 _ (by decide)]
  simp [parseStringBody_quoteBody, skipWs_cons 58 _ (by decide), hval n _ hn,
    skipWs_cons 44 _ (by decide)]

theorem parseMembers_close (n cost : Nat) (acc : List (JSString × JVal)) (key : String)
    (valueText : JSString) (val : JVal) (rest : JSString)
    (hval : ParsesTo cost valueText val) (hn : cost ≤ n) :
    parseMembers (n + 1) acc (stringifyMember key valueText ++ 125 :: rest) =
      some (defineMember acc (utf16 key) val, rest) := by
  have h : stringifyMember key valueText ++ 125 :: rest =
      34 :: (quoteBody (utf16 key) ++ 34 :: 58 :: (valueText ++ 125 :: rest)) := by
    simp [stringifyMember, quoteJSONString]
  rw [h, parseMembers, skipWs_cons 34 _ (by decide)]
  simp [parseStringBody_quoteBody, skipWs_cons 58 _ (by decide), hval n _ hn,
    skipWs_cons 125 _ (by decide)]

theorem stringifyMember_head (key : String) (valueText : JSString) :
    ∃ body, stringifyMember key valueText = 34 :: body :=
  ⟨_, by simp [stringifyMember, quoteJSONString]; rfl⟩

theorem parsesTo_resetPhrase (rp : ResetPhrase) :
    ParsesTo 4 (stringifyResetPhrase rp) (resetPhraseValue rp) := by
  intro n tail hn
  obtain ⟨k, rfl⟩ : ∃ k, n = k + 3 := ⟨n - 3, by omega⟩
  obtain ⟨body, hbody⟩ := stringifyMember_head "id" (quoteJSONString rp.id)
  have h : stringifyResetPhrase rp ++ tail =
      123 :: (stringifyMember "id" (quoteJSONString rp.id) ++ 44 ::
        (stringifyMember "text" (quoteJSONString rp.text) ++ 125 :: tail)) := by
    simp [stringifyResetPhrase, joinComma]
  have h2 : parseValue (k + 2 + 1) (123 :: (stringifyMember "id" (quoteJSONString rp.id) ++
      44 :: (stringifyMember "text" (quoteJSONString rp.text) ++ 125 :: tail))) =
      (parseMembers (k + 2) [] (stringifyMember "id" (quoteJSONString rp.id) ++
        44 :: (stringifyMember "text" (quoteJSONString rp.text) ++ 125 :: tail))).map
          fun r => (JVal.obj r.1, r.2) := by
    rw [hbody]
    exact parseValue_object (k + 2) _
  rw [h, h2, parseMembers_comma (k + 1) 1 _ _ _ _ _ (parsesTo_string rp.id) (by omega),
    parseMembers_close k 1 _ _ _ _ _ (parsesTo_string rp.text) (by omega)]
  have hne : (utf16 "id" == utf16 "text") = false := by decide
  simp [defineMember, resetPhraseValue, hne]

theorem parseElements_comma (n cost : Nat) (text : JSString) (v : JVal) (rest : JSString)
    (hval : ParsesTo cost text v) (hn : cost ≤ n) :
    parseElements (n + 1) (text ++ 44 :: rest) =
      (parseElements n rest).map fun x => (v :: x.1, x.2) := by
  rw [parseElements, hval n _ hn]
  simp [skipWs_cons 44 _ (by decide)]

theorem parseElements_close (n cost : Nat) (text : JSString) (v : JVal) (rest : JSString)
    (hval : ParsesTo cost text v) (hn : cost ≤ n) :
    parseElements (n + 1) (text ++ 93 :: rest) = some ([v], rest) := by
  rw [parseElements, hval n _ hn]
  simp [skipWs_cons 93 _ (by decide)]

/-- A non-empty comma-joined list of serialized elements, each parsed by
`parseValue` within `cost`, is parsed by `parseElements` with fuel for every
element. -/
theorem parseElements_joinComma {α : Type} (f : α → JSString) (g : α → JVal) (cost : α → Nat)
    (hval : ∀ a, ParsesTo (cost a) (f a) (g a)) (a : α) (l : List α) (n : Nat)
    (rest : JSString) (hn : ((a :: l).map fun x => cost x + 1).sum ≤ n) :
    parseElements n (joinComma ((a :: l).map f) ++ 93 :: rest) =
      some ((a :: l).map g, rest) := by
  induction l generalizing a n with
  | nil =>
    simp only [List.map_cons, List.map_nil, List.sum_cons, List.sum_nil] at hn
    obtain ⟨k, rfl⟩ : ∃ k, n = k + 1 := ⟨n - 1, by omega⟩
    simp only [List.map_cons, List.map_nil, joinComma]
    exact parseElements_close k (cost a) (f a) (g a) rest (hval a) (by omega)
  | cons b l ih =>
    simp only [List.map_cons, List.sum_cons] at hn
    obtain ⟨k, rfl⟩ : ∃ k, n = k + 1 := ⟨n - 1, by omega⟩
    have hj : joinComma ((a :: b :: l).map f) ++ 93 :: rest =
        f a ++ 44 :: (joinComma ((b :: l).map f) ++ 93 :: rest) := by
      simp [joinComma]
    rw [hj, parseElements_comma k (cost a) (f a) (g a) _ (hval a) (by omega),
      ih b k (by simp only [List.map_cons, List.sum_cons]; omega)]
    rfl

theorem stringifyResetPhrase_head (rp : ResetPhrase) :
    ∃ body, stringifyResetPhrase rp = 123 :: body := ⟨_, rfl⟩

theorem stringifyThought_head (t : Thought) : ∃ body, stringifyThought t = 123 :: body :=
  ⟨_, rfl⟩

theorem joinComma_head {α : Type} (f : α → JSString)
    (hf : ∀ a, ∃ body, f a = 123 :: body) (a : α) (l : List α) :
    ∃ body, joinComma ((a :: l).map f) = 123 :: body := by
  obtain ⟨body, hbody⟩ := hf a
  cases l with
  | nil => exact ⟨body, by simp [joinComma, hbody]⟩
  | cons b l => exact ⟨body ++ 44 :: joinComma ((b :: l).map f), by simp [joinComma, hbody]⟩

/-- A serialized array of objects is parsed by `parseValue` with fuel for
every element. -/
theorem parsesTo_array {α : Type} (f : α → JSString) (g : α → JVal) (cost : α → Nat)
    (hval : ∀ a, ParsesTo (cost a) (f a) (g a)) (hf : ∀ a, ∃ body, f a = 123 :: body)
    (l : List α) :
    ParsesTo ((l.map fun x => cost x + 1).sum + 1) (91 :: (joinComma (l.map f) ++ [93]))
      (JVal.arr (l.map g)) := by
  intro n tail hn
  obtain ⟨k, rfl⟩ : ∃ k, n = k + 1 := ⟨n - 1, by omega⟩
  cases l with
  | nil =>
    simp only [List.map_nil, joinComma, List.nil_append, List.cons_append]
    exact parseValue_array_empty k tail
  | cons a l =>
    obtain ⟨body, hbody⟩ := joinComma_head f hf a l
    have h : (91 :: (joinComma ((a :: l).map f) ++ [93])) ++ tail =
        91 :: (joinComma ((a :: l).map f) ++ 93 :: tail) := by simp
    rw [h]
    have h2 : parseValue (k + 1) (91 :: (joinComma ((a :: l).map f) ++ 93 :: tail)) =
        (parseElements k (joinComma ((a :: l).map f) ++ 93 :: tail)).map
          fun r => (JVal.arr r.1, r.2) := by
      rw [hbody]
      exact parseValue_array k _
    rw [h2, parseElements_joinComma f g cost hval a l k tail (by omega)]
    rfl

theorem parsesTo_resetPhrases (rps : List ResetPhrase) :
    ParsesTo (5 * rps.length + 1) (stringifyResetPhrases rps)
      (JVal.arr (rps.map resetPhraseValue)) := by
  have hsum : ∀ l : List ResetPhrase, (l.map fun _ => 4 + 1).sum = 5 * l.length := by
    intro l
    induction l with
    | nil => rfl
    | cons a l ih => simp only [List.map_cons, List.sum_cons, List.length_cons, ih]; omega
  have h := parsesTo_array stringifyResetPhrase resetPhraseValue (fun _ => 4)
    parsesTo_resetPhrase stringifyResetPhrase_head rps
  rw [hsum rps] at h
  exact h

theorem parsesTo_thought (t : Thought) :
    ParsesTo (thoughtCost t) (stringifyThought t) (thoughtValue t) := by
  intro n tail hn
  unfold thoughtCost at hn
  obtain ⟨k, rfl⟩ : ∃ k, n = k + 4 := ⟨n - 4, by omega⟩
  obtain ⟨body, hbody⟩ := stringifyMember_head "id" (quoteJSONString t.id)
  have h : stringifyThought t ++ tail =
      123 :: (stringifyMember "id" (quoteJSONString t.id) ++ 44 ::
        (stringifyMember "text" (quoteJSONString t.text) ++ 44 ::
          (stringifyMember "resetPhrases" (stringifyResetPhrases t.resetPhrases) ++
            125 :: tail))) := by
    simp [stringifyThought, joinComma]
  have h2 : parseValue (k + 3 + 1) (123 :: (stringifyMember "id" (quoteJSONString t.id) ++
      44 :: (stringifyMember "text" (quoteJSONString t.text) ++ 44 ::
        (stringifyMember "resetPhrases" (stringifyResetPhrases t.resetPhrases) ++
          125 :: tail)))) =
      (parseMembers (k + 3) [] (stringifyMember "id" (quoteJSONString t.id) ++
        44 :: (stringifyMember "text" (quoteJSONString t.text) ++ 44 ::
          (stringifyMember "resetPhrases" (stringifyResetPhrases t.resetPhrases) ++
            125 :: tail)))).map fun r => (JVal.obj r.1, r.2) := by
    rw [hbody]
    exact parseValue_object (k + 3) _
  rw [h, h2, parseMembers_comma (k + 2) 1 _ _ _ _ _ (parsesTo_string t.id) (by omega),
    parseMembers_comma (k + 1) 1 _ _ _ _ _ (parsesTo_string t.text) (by omega),
    parseMembers_close k _ _ _ _ _ _ (parsesTo_resetPhrases t.resetPhrases) (by omega)]
  have h12 : (utf16 "id" == utf16 "text") = false := by decide
  have h13 : (utf16 "id" == utf16 "resetPhrases") = false := by decide
  have h23 : (utf16 "text" == utf16 "resetPhrases") = false := by decide
  simp [defineMember, thoughtValue, h12, h13, h23]

theorem parsesTo_stringify (data : List Thought) :
    ParsesTo ((data.map fun t => thoughtCost t + 1).sum + 1) (stringify data)
      (JVal.arr (data.map thoughtValue)) :=
  parsesTo_array stringifyThought thoughtValue thoughtCost parsesTo_thought
    stringifyThought_head data

/-! ## JSON round trip: the Store -/

theorem joinComma_length (ls : List JSString) :
    (ls.map List.length).sum ≤ (joinComma ls).length := by
  induction ls with
  | nil => simp [joinComma]
  | cons x rest ih =>
    cases rest with
    | nil => simp [joinComma]
    | cons y rest =>
      simp only [joinComma, List.map_cons, List.sum_cons, List.length_append,
        List.length_cons] at ih ⊢
      omega

theorem stringifyResetPhrases_length (rps : List ResetPhrase) :
    3 * rps.length + 2 ≤ (stringifyResetPhrases rps).length := by
  have h := joinComma_length (rps.map stringifyResetPhrase)
  have hsum : ∀ l : List ResetPhrase,
      3 * l.length ≤ ((l.map stringifyResetPhrase).map List.length).sum := by
    intro l
    induction l with
    | nil => simp
    | cons a l ih =>
      have ha : 3 ≤ (stringifyResetPhrase a).length := by
        simp [stringifyResetPhrase, joinComma, stringifyMember, quoteJSONString]
        omega
      simp only [List.map_cons, List.sum_cons, List.length_cons]
      omega
  have := hsum rps
  simp only [stringifyResetPhrases, List.length_cons, List.length_append, List.length_nil]
  omega

theorem thoughtCost_le (t : Thought) : thoughtCost t + 1 ≤ 2 * (stringifyThought t).length := by
  have h := stringifyResetPhrases_length t.resetPhrases
  have hlen : (stringifyResetPhrases t.resetPhrases).length + 2 ≤
      (stringifyThought t).length := by
    simp [stringifyThought, joinComma, stringifyMember, quoteJSONString]
    omega
  unfold thoughtCost
  omega

theorem stringify_fuel (data : List Thought) :
    (data.map fun t => thoughtCost t + 1).sum + 1 ≤ 2 * (stringify data).length + 2 := by
  have h := joinComma_length (data.map stringifyThought)
  have hsum : ∀ l : List Thought, (l.map fun t => thoughtCost t + 1).sum ≤
      2 * ((l.map stringifyThought).map List.length).sum := by
    intro l
    induction l with
    | nil => simp
    | cons a l ih =>
      have := thoughtCost_le a
      simp only [List.map_cons, List.sum_cons]
      omega
  have := hsum data
  simp only [stringify, List.length_cons, List.length_append, List.length_nil]
  omega

theorem parse_stringify (data : List Thought) :
    parse (stringify data) = some (JVal.arr (data.map thoughtValue)) := by
  have h := parsesTo_stringify data (2 * (stringify data).length + 2) [] (stringify_fuel data)
  rw [List.append_nil] at h
  simp [parse, h, skipWs]

theorem decodeAll_map {α : Type} (f : JVal → Option α) (g : α → JVal)
    (h : ∀ a, f (g a) = some a) (l : List α) : decodeAll f (l.map g) = some l := by
  induction l with
  | nil => rfl
  | cons a l ih => simp [decodeAll, h, ih]

theorem decodeResetPhrase_value (rp : ResetPhrase) :
    decodeResetPhrase (resetPhraseValue rp) = some rp := by
  simp [decodeResetPhrase, resetPhraseValue]

theorem decodeThought_value (t : Thought) : decodeThought (thoughtValue t) = some t := by
  simp [decodeThought, thoughtValue, decodeAll_map decodeResetPhrase resetPhraseValue
    decodeResetPhrase_value]

/-- Serializing the Thought list and reading it back yields the same list. -/
theorem decode_parse_stringify (data : List Thought) :
    (parse (stringify data)).bind decodeThoughts = some data := by
  rw [parse_stringify]
  simp [decodeThoughts, decodeAll_map decodeThought thoughtValue decodeThought_value]

theorem getItem_setItem (st : Storage) (key value : JSString) :
    (st.setItem key value).getItem key = some value := by
  unfold Storage.setItem Storage.getItem
  by_cases h : st.any (fun kv => kv.1 == key) = true
  · simp only [h, if_true]
    induction st with
    | nil => simp at h
    | cons kv rest ih =>
      by_cases hk : kv.1 = key
      · simp [hk]
      · have hrest : rest.any (fun kv => kv.1 == key) = true := by
          simpa [List.any_cons, hk] using h
        simpa [List.find?_cons, hk] using ih hrest
  · simp only [h]
    have hnone : st.find? (fun kv => kv.1 == key) = none := by
      rw [List.find?_eq_none]
      intro kv hkv hbeq
      apply h
      rw [List.any_eq_true]
      exact ⟨kv, hkv, hbeq⟩
    simp [List.find?_append, hnone]

theorem stringify_ne_nil (data : List Thought) : stringify data ≠ [] := by
  simp [stringify]

theorem loadData_setItem (st : Storage) (data : List Thought) :
    loadData (st.setItem STORAGE_KEY (stringify data)) = some data := by
  simp [loadData, getItem_setItem, stringify_ne_nil, decode_parse_stringify]

/-! ## Persistence -/

theorem persisted_of_saved (p q : Page)
    (hst : q.sessionStorage = p.sessionStorage.setItem STORAGE_KEY (stringify q.thoughtsData))
    (heff : q.effects = p.effects ++ [Effect.setItem STORAGE_KEY (stringify q.thoughtsData)]) :
    q.sessionStorage.getItem STORAGE_KEY = some (stringify q.thoughtsData) ∧
    q.effects = p.effects ++ [Effect.setItem STORAGE_KEY (stringify q.thoughtsData)] ∧
    (parse (stringify q.thoughtsData)).bind decodeThoughts = some q.thoughtsData ∧
    loadData q.sessionStorage = some q.thoughtsData := by
  refine ⟨?_, heff, decode_parse_stringify _, ?_⟩
  · rw [hst]
    exact getItem_setItem _ _ _
  · rw [hst]
    exact loadData_setItem _ _

/-- C10: after a successful add or edit (Thought or reset phrase) the value
under the storage key is the serialization of the current Thought list, the
handler wrote it with one `setItem` that replaces whatever was stored, and
`loadData` on that storage returns the current list: the same Thoughts in the
same order, each with the same id, text and reset phrases. -/
theorem mutation_is_persisted (now : Int) (i j : Nat) (s : JSString) (p q : Page)
    (hq : (q = handleNewThought now p ∧ trim p.newThoughtInput ≠ []) ∨
      (q = handleNewResetPhrase now p ∧ trim p.newResetPhraseInput ≠ [] ∧
        ∃ t ∈ p.thoughtsData, some t.id = p.thoughtId) ∨
      (q = editThoughtClick i (some s) p ∧ trim s ≠ [] ∧ i < p.thoughtsData.length) ∨
      (q = editResetClick i j (some s) p ∧ trim s ≠ [] ∧
        ∃ t, p.thoughtsData[i]? = some t ∧ j < t.resetPhrases.length)) :
    q.sessionStorage.getItem STORAGE_KEY = some (stringify q.thoughtsData) ∧
    q.effects = p.effects ++ [Effect.setItem STORAGE_KEY (stringify q.thoughtsData)] ∧
    (parse (stringify q.thoughtsData)).bind decodeThoughts = some q.thoughtsData ∧
    loadData q.sessionStorage = some q.thoughtsData := by
  rcases hq with ⟨rfl, h⟩ | ⟨rfl, h, t, ht, hid⟩ | ⟨rfl, h, hi⟩ | ⟨rfl, h, t, hi, hj⟩
  · apply persisted_of_saved p <;>
      simp [handleNewThought, h, showResetSection, saveData, renderThoughts]
  · cases hthoughtId : p.thoughtId with
    | none => simp [hthoughtId] at hid
    | some thoughtId =>
      have hidt : t.id = thoughtId := by
        rw [hthoughtId] at hid
        exact Option.some.inj hid
      obtain ⟨k, hk⟩ := List.getElem?_of_mem ht
      obtain ⟨u, hu⟩ := find?_isSome_of_getElem? thoughtId p.thoughtsData k t hk hidt
      apply persisted_of_saved p <;>
        simp [handleNewResetPhrase, h, hthoughtId, hu, saveData, renderThoughts]
  · obtain ⟨t, ht⟩ : ∃ t, p.thoughtsData[i]? = some t :=
      ⟨p.thoughtsData[i], List.getElem?_eq_getElem hi⟩
    rw [editThoughtClick_accepted i s p t ht h]
    apply persisted_of_saved p <;> simp [saveData, renderThoughts]
  · obtain ⟨rp, hrp⟩ : ∃ rp, t.resetPhrases[j]? = some rp :=
      ⟨t.resetPhrases[j], List.getElem?_eq_getElem hj⟩
    rw [editResetClick_accepted i j s p t rp hi hrp h]
    apply persisted_of_saved p <;> simp [saveData, renderThoughts]

/-- Witness for C10: the Thought ` A ` added on the empty page. -/
theorem mutation_is_persisted_witness :
    trim pageTypedA.newThoughtInput ≠ [] ∧
    loadData (handleNewThought 1000 pageTypedA).sessionStorage =
      some (handleNewThought 1000 pageTypedA).thoughtsData :=
  ⟨by decide,
    (mutation_is_persisted 1000 0 0 [] pageTypedA (handleNewThought 1000 pageTypedA)
      (Or.inl ⟨rfl, by decide⟩)).2.2.2⟩

/-! ## Page start -/

/-- C7 (what the code does): the script body reads the storage at line 22,
before the load listener of line 4 runs, so the Thought list at startup is
whatever `loadData` finds, and only afterwards is the storage cleared.  When
the tab is reloaded after the Thought "A" was added, the list at startup holds
that Thought: it is not empty. -/
theorem pageLoad_reads_before_clear :
    (∀ p : Page, (pageLoad p).map Page.thoughtsData = loadData p.sessionStorage) ∧
    (∀ p : Page, (pageLoad p).map Page.sessionStorage =
      (loadData p.sessionStorage).map fun _ => ([] : Storage)) ∧
    secondLoad.map Page.thoughtsData = some [⟨utf16 "1000", utf16 "A", []⟩] ∧
    secondLoad.map Page.thoughtsData ≠ some [] := by
  refine ⟨?_, ?_, ?_, ?_⟩
  · intro p
    cases h : loadData p.sessionStorage <;> simp [pageLoad, runScript, h, onLoad]
  · intro p
    cases h : loadData p.sessionStorage <;> simp [pageLoad, runScript, h, onLoad]
  · decide
  · decide

end ClearMindLoop
